import Mathlib

/-!
# Page-fault handling of the virtual-memory simulator (`main.c`)

A shallow embedding of the fault handler of `main.c` and of the helpers it
calls.  The C globals (`nframes`, the three counters, `physmem`, `disk`,
`free_frames`, `frames_info`, `page_algo`, the two linked lists) and the page
table passed to the handler are the fields of `State`; every C function becomes
a Lean function from a state to an outcome.

Conventions.

* C `int` values are `Int`.  The increment `x++` of an `int` is `int_incr`, which
  reduces `x + 1` to the 32-bit two's-complement range (`2147483647` is followed
  by `-2147483648`); the three counters and the `lru` field of a node are
  incremented that way.
* An array is a list; every access goes through `read_at` / `write_at`, which
  fail with `Fault.undefined` outside the bounds (undefined behaviour in C).
* `exit(1)` is `Fault.exit1`; dereferencing `NULL` is `Fault.undefined`.
* A singly linked list `head -> ... -> tail` is the list of its nodes.
* Physical memory and the disk are handled at the granularity of one page:
  `&physmem[f * PAGE_SIZE]` is block `f` of `physmem`.
* `lrand48()` is an input of the handler (its result when it is called).
-/

namespace VM

/-- The replacement policy tag, `algo` of `main.c`. -/
inductive algo where
  | FIFO
  | RAND
  | CUSTOM
deriving DecidableEq, Repr

/-- A list node, `node_t` of `main.c` (the `next` pointer is the list order).  The
field `lru` is a C `int`: it starts at `1` and changes only by `lru++`
(`int_incr`) or by being reset to `1`. -/
structure node_t where
  id : Int
  lru : Int
deriving DecidableEq, Repr

/-- How a call can fail to return: `exit(1)`, or behaviour the C standard leaves
undefined (out-of-bounds access, `NULL` dereference, division by zero). -/
inductive Fault where
  | exit1
  | undefined
deriving DecidableEq, Repr

/-- The value of a C `int` after `x++`: `x + 1` reduced to the 32-bit
two's-complement range, so `2147483647` is followed by `-2147483648`.  (The C
standard leaves signed overflow undefined; this is what the compiled program
does.) -/
def int_incr (x : Int) : Int := (x + 1 + 2147483648) % 4294967296 - 2147483648

/-- The content of one page (`PAGE_SIZE` bytes). -/
abbrev Block := List Nat

/-- Checked array read `l[i]`. -/
def read_at {α : Type} (l : List α) (i : Int) : Except Fault α :=
  if 0 ≤ i then
    match l[i.toNat]? with
    | some a => .ok a
    | none => .error .undefined
  else .error .undefined

/-- Checked array write `l[i] = a`. -/
def write_at {α : Type} (l : List α) (i : Int) (a : α) : Except Fault (List α) :=
  if 0 ≤ i ∧ i.toNat < l.length then .ok (l.set i.toNat a) else .error .undefined

/-- Modelled from the spec: the READ permission bit, `PROT_READ` of the system
header that `page_table.h` includes (neither is among the sources); its value on
Linux is `1`, which the test `(curr_bits & PROT_READ) == 1` of the handler relies
on. -/
def PROT_READ : Int := 1

/-- Modelled from the spec: the WRITE permission bit, `PROT_WRITE` of the system
header that `page_table.h` includes (neither is among the sources); its value on
Linux is `2`. -/
def PROT_WRITE : Int := 2

/-- Modelled from the spec: a page-table entry `(frame_id, permission)` of the
page-table collaborator (`page_table.h` / `page_table.c` are not among the
sources). -/
structure pt_entry where
  frame : Int
  bits : Int
deriving DecidableEq, Repr

/-- Modelled from the spec: `get_entry(page_id) -> (frame_id, permission)` of the
page-table collaborator, which is missing from the sources; a page outside the
table is fatal. -/
def page_table_get_entry (pt : List pt_entry) (page : Int) : Except Fault pt_entry :=
  read_at pt page

/-- Modelled from the spec: `set_entry(page_id, frame_id, permission)` of the
page-table collaborator, which is missing from the sources; a page outside the
table is fatal. -/
def page_table_set_entry (pt : List pt_entry) (page frame bits : Int) :
    Except Fault (List pt_entry) :=
  write_at pt page ⟨frame, bits⟩

/-- Modelled from the spec: `read(handle, page_id, buffer)` of the backing-store
collaborator (`disk.h` / `disk.c` are missing from the sources): the content of
block `block`, to be stored in the buffer. -/
def disk_read (disk : List Block) (block : Int) : Except Fault Block :=
  read_at disk block

/-- Modelled from the spec: `write(handle, page_id, buffer)` of the backing-store
collaborator (`disk.h` / `disk.c` are missing from the sources). -/
def disk_write (disk : List Block) (block : Int) (data : Block) : Except Fault (List Block) :=
  write_at disk block data

/-- The globals of `main.c` that the handler uses, and the page table `pt`.  The
counters `disk_reads`, `disk_writes` and `page_faults` are C `int`s: they start at
`0` and change only by `++`, which is `int_incr` and keeps them in the 32-bit
range. -/
structure State where
  nframes : Int
  disk_reads : Int
  disk_writes : Int
  page_faults : Int
  physmem : List Block
  disk : List Block
  free_frames : List Int
  frames_info : List Int
  page_algo : algo
  fifo : List node_t
  lru : List node_t
  pt : List pt_entry
deriving DecidableEq, Repr

/-- `create_node`. -/
def create_node (node : Int) : node_t := { id := node, lru := 1 }

/-- `add_node`: append a fresh node at the tail. -/
def add_node (l : List node_t) (node : Int) : List node_t := l ++ [create_node node]

/-- `remove_first_node`: `-1` on the empty list, else the head's id and the rest. -/
def remove_first_node (l : List node_t) : Int × List node_t :=
  match l with
  | [] => (-1, [])
  | temp :: rest => (temp.id, rest)

/-- `init_frames`: `calloc` of the two frame arrays, or `exit(1)`. -/
def init_frames (nframes : Int) : Except Fault (List Int × List Int) :=
  if nframes > 0 then .ok (List.replicate nframes.toNat 0, List.replicate nframes.toNat 0)
  else .error .exit1

/-- The loop of `select_free_frame` from index `i`, with `k` iterations left. -/
def select_free_frame_from (free_frames : List Int) : Nat → Int → Except Fault (Int × List Int)
  | 0, _ => .ok (-1, free_frames)
  | k + 1, i =>
    match read_at free_frames i with
    | .error e => .error e
    | .ok v =>
      if v = 0 then
        match write_at free_frames i 1 with
        | .error e => .error e
        | .ok ff => .ok (i, ff)
      else select_free_frame_from free_frames k (i + 1)

/-- `select_free_frame`: the result and the new `free_frames`. -/
def select_free_frame (nframes : Int) (free_frames : List Int) : Except Fault (Int × List Int) :=
  select_free_frame_from free_frames nframes.toNat 0

/-- `update_access`: `curr->lru++` for every node with another id (an `int`
increment, `int_incr`), `curr->lru = 1` for the node with id `node`. -/
def update_access (l : List node_t) (node : Int) : List node_t :=
  l.map fun curr => if curr.id ≠ node then { curr with lru := int_incr curr.lru } else { curr with lru := 1 }

/-- `replace_page`. -/
def replace_page (s : State) (page removed_frame_id : Int) : Except Fault State := do
  let removed_page ← read_at s.frames_info removed_frame_id
  let e ← page_table_get_entry s.pt removed_page
  let removed_frame := e.frame
  let removed_bits := e.bits
  let s ← (if Int.land removed_bits PROT_WRITE ≠ 0 then do
      let buf ← read_at s.physmem removed_frame
      let d ← disk_write s.disk removed_page buf
      pure { s with disk := d, disk_writes := int_incr s.disk_writes }
    else pure s : Except Fault State)
  let pt ← page_table_set_entry s.pt removed_page 0 0
  let pt ← page_table_set_entry pt page removed_frame (Int.lor 0 PROT_READ)
  let blk ← disk_read s.disk page
  let pm ← write_at s.physmem removed_frame blk
  let fi ← write_at s.frames_info removed_frame page
  pure { s with pt := pt, physmem := pm, disk_reads := int_incr s.disk_reads, frames_info := fi }

/-- `fifo_replace_page`. -/
def fifo_replace_page (s : State) (page : Int) : Except Fault State :=
  let r := remove_first_node s.fifo
  let removed_frame_id := r.1
  if removed_frame_id < 0 then .error .exit1
  else do
    let s ← replace_page { s with fifo := r.2 } page removed_frame_id
    pure { s with fifo := add_node s.fifo removed_frame_id }

/-- The scan of `lru_replace_page`: `best` is `lru_frame` (`none` for `NULL`). -/
def lru_scan : Option node_t → List node_t → Option node_t
  | best, [] => best
  | none, curr :: rest => lru_scan (some curr) rest
  | some b, curr :: rest => lru_scan (if curr.lru > b.lru then some curr else some b) rest

/-- `lru_replace_page`. -/
def lru_replace_page (s : State) (page : Int) : Except Fault State :=
  match lru_scan none s.lru with
  | none => .error .undefined
  | some lru_frame => do
    let removed_frame_id := lru_frame.id
    let s ← replace_page s page removed_frame_id
    pure { s with lru := update_access s.lru removed_frame_id }

/-- `rand_replace_page`; `rnd` is the value returned by `lrand48()`. -/
def rand_replace_page (s : State) (page rnd : Int) : Except Fault State :=
  if s.nframes = 0 then .error .undefined
  else replace_page s page (Int.tmod rnd s.nframes)

/-- `page_fault_handler`; `rnd` is the value `lrand48()` returns if it is called. -/
def page_fault_handler (s : State) (page rnd : Int) : Except Fault State := do
  let s := { s with page_faults := int_incr s.page_faults }
  let e ← page_table_get_entry s.pt page
  let curr_frame := e.frame
  let curr_bits := e.bits
  if Int.land curr_bits PROT_READ = 0 ∧ Int.land curr_bits PROT_WRITE = 0 then do
    let r ← select_free_frame s.nframes s.free_frames
    let frame := r.1
    let s := { s with free_frames := r.2 }
    if frame < 0 then
      match s.page_algo with
      | .FIFO => fifo_replace_page s page
      | .RAND => rand_replace_page s page rnd
      | .CUSTOM => lru_replace_page s page
    else do
      let pt ← page_table_set_entry s.pt page frame (Int.lor 0 PROT_READ)
      let s := { s with pt := pt }
      let s := match s.page_algo with
        | .FIFO => { s with fifo := add_node s.fifo frame }
        | .RAND => s
        | .CUSTOM => { s with lru := update_access (add_node s.lru frame) frame }
      let blk ← disk_read s.disk page
      let pm ← write_at s.physmem frame blk
      let fi ← write_at s.frames_info frame page
      pure { s with physmem := pm, disk_reads := int_incr s.disk_reads, frames_info := fi }
  else do
    let pt ← (if Int.land curr_bits PROT_READ = 1 ∧ Int.land curr_bits PROT_WRITE = 0 then
        page_table_set_entry s.pt page curr_frame (Int.lor curr_bits PROT_WRITE)
      else
        page_table_set_entry s.pt page curr_frame (Int.lor curr_bits PROT_READ))
    let s := { s with pt := pt }
    pure (if s.page_algo = .CUSTOM then { s with lru := update_access s.lru curr_frame } else s)

/-- The state `main` sets up before the first fault: `init_frames`, a fresh page
table of `npages` unmapped entries and the counters reset to `0`.  `physmem` and
`disk` are the contents of the physical memory (`nframes` blocks) and of the disk
(`npages` blocks) at that point. -/
def init_state (npages : Nat) (nframes : Int) (a : algo) (physmem disk : List Block) :
    Except Fault State := do
  let fr ← init_frames nframes
  pure { nframes := nframes, disk_reads := 0, disk_writes := 0, page_faults := 0,
         physmem := physmem, disk := disk, free_frames := fr.1, frames_info := fr.2,
         page_algo := a, fifo := [], lru := [], pt := List.replicate npages ⟨0, 0⟩ }

/-- A sequence of faults: each item is the faulting page and the `lrand48()` value. -/
def run (s : State) : List (Int × Int) → Except Fault State
  | [] => .ok s
  | f :: rest =>
    match page_fault_handler s f.1 f.2 with
    | .error e => .error e
    | .ok s1 => run s1 rest

/-- The ids of the nodes of a list, in list order. -/
def ids (l : List node_t) : List Int := l.map fun n => n.id

/-- Consistency of the frame table and the page table: the arrays have `nframes`
cells, the disk has one block per page, and resident pages and occupied frames
point at each other. -/
structure Core (s : State) : Prop where
  nframes_pos : 0 < s.nframes
  len_ff : (s.free_frames.length : Int) = s.nframes
  len_fi : (s.frames_info.length : Int) = s.nframes
  len_pm : (s.physmem.length : Int) = s.nframes
  len_disk : s.disk.length = s.pt.length
  ff01 : ∀ f v, read_at s.free_frames f = .ok v → v = 0 ∨ v = 1
  bits : ∀ p e, read_at s.pt p = .ok e → e.bits = 0 ∨ e.bits = 1 ∨ e.bits = 3
  res_frame : ∀ p e, read_at s.pt p = .ok e → e.bits ≠ 0 →
    read_at s.free_frames e.frame = .ok 1 ∧ read_at s.frames_info e.frame = .ok p
  occ_page : ∀ f, read_at s.free_frames f = .ok 1 →
    ∃ p e, read_at s.frames_info f = .ok p ∧ read_at s.pt p = .ok e ∧ e.bits ≠ 0 ∧ e.frame = f

/-- Consistency of the frame table, the page table and the policy bookkeeping:
the invariant that every fault preserves. -/
structure Inv (s : State) : Prop where
  core : Core s
  fifo_inv : s.page_algo = .FIFO →
    (ids s.fifo).Nodup ∧ ∀ f, f ∈ ids s.fifo ↔ read_at s.free_frames f = .ok 1
  lru_inv : s.page_algo = .CUSTOM →
    (ids s.lru).Nodup ∧ ∀ f, f ∈ ids s.lru ↔ read_at s.free_frames f = .ok 1

/-- A fault the page table can raise: a page of the table, together with a value
in the range of `lrand48()`. -/
@[reducible] def valid_fault (npages : Nat) (ev : Int × Int) : Prop :=
  0 ≤ ev.1 ∧ ev.1 < npages ∧ 0 ≤ ev.2 ∧ ev.2 < 2147483648

/-- The state reached from the initial state by a sequence of faults. -/
def reach (npages : Nat) (nframes : Int) (a : algo) (physmem disk : List Block)
    (evs : List (Int × Int)) : Except Fault State :=
  match init_state npages nframes a physmem disk with
  | .error e => .error e
  | .ok s0 => run s0 evs

/-- The number of frames marked occupied in `free_frames`. -/
def occupied_count (s : State) : Nat := s.free_frames.countP fun x => decide (x ≠ 0)

/-- The number of pages whose page-table permission is non-zero. -/
def resident_count (s : State) : Nat := s.pt.countP fun e => decide (e.bits ≠ 0)

/-- Every resident page (permission bits non-zero) is mapped to a frame that is
marked occupied and records that page as its occupant. -/
def resident_consistent (s : State) : Prop :=
  ∀ p e, read_at s.pt p = .ok e → e.bits ≠ 0 →
    read_at s.free_frames e.frame = .ok 1 ∧ read_at s.frames_info e.frame = .ok p

/-- No two resident pages are mapped to the same frame. -/
def frames_injective (s : State) : Prop :=
  ∀ p1 p2 e1 e2, read_at s.pt p1 = .ok e1 → read_at s.pt p2 = .ok e2 →
    e1.bits ≠ 0 → e2.bits ≠ 0 → e1.frame = e2.frame → p1 = p2

/-- Page `q`, with entry `e` before the fault on `page`, is the page that the fault
evicted: the faulting page was unmapped, `q` was the recorded occupant of its frame,
and afterwards the faulting page is mapped to that frame and recorded there. -/
def evicted_by (s s2 : State) (page q : Int) (e : pt_entry) : Prop :=
  e.bits ≠ 0 ∧ read_at s.frames_info e.frame = .ok q ∧
  read_at s2.frames_info e.frame = .ok page ∧
  ∃ ep ep2, read_at s.pt page = .ok ep ∧ ep.bits = 0 ∧
    read_at s2.pt page = .ok ep2 ∧ ep2.frame = e.frame

/-- The permission of every page moves as allowed by a fault on `page`: it is
unchanged, or it is the faulting page's and moves one step along
`0 -> PROT_READ -> PROT_READ|PROT_WRITE`, or it is the evicted page's and is reset
to `0`. -/
def perm_monotone (s s2 : State) (page : Int) : Prop :=
  ∀ q e e2, read_at s.pt q = .ok e → read_at s2.pt q = .ok e2 →
    e2.bits = e.bits ∨
    (q = page ∧ ((e.bits = 0 ∧ e2.bits = PROT_READ) ∨
      (e.bits = PROT_READ ∧ e2.bits = Int.lor PROT_READ PROT_WRITE))) ∨
    (q ≠ page ∧ e2.bits = 0 ∧ evicted_by s s2 page q e)

/-- No page goes from `PROT_READ|PROT_WRITE` to `PROT_READ`. -/
def no_write_revoked (s s2 : State) : Prop :=
  ∀ q e e2, read_at s.pt q = .ok e → read_at s2.pt q = .ok e2 →
    ¬ (e.bits = Int.lor PROT_READ PROT_WRITE ∧ e2.bits = PROT_READ)

/-- At most one page other than the faulting page changes permission. -/
def one_other_change (s s2 : State) (page : Int) : Prop :=
  ∀ q1 q2 e1 e2 f1 f2, q1 ≠ page → q2 ≠ page →
    read_at s.pt q1 = .ok e1 → read_at s2.pt q1 = .ok f1 → f1.bits ≠ e1.bits →
    read_at s.pt q2 = .ok e2 → read_at s2.pt q2 = .ok f2 → f2.bits ≠ e2.bits → q1 = q2

/-- A state with two frames under FIFO: page 0 is resident in frame 0, frame 1 is
free. -/
def one_resident_state : State :=
  { nframes := 2, disk_reads := 1, disk_writes := 0, page_faults := 1,
    physmem := [[10], []], disk := [[10], [11], [12]], free_frames := [1, 0],
    frames_info := [0, 0], page_algo := .FIFO, fifo := [⟨0, 1⟩], lru := [],
    pt := [⟨0, 1⟩, ⟨0, 0⟩, ⟨0, 0⟩] }

/-- What `replace_page` does to the backing store when it evicts page `q`, whose
entry was `e`, from a frame holding `buf`: a dirty page is written back
(`disk_writes` is incremented, no other block changes); otherwise the disk is left
unchanged. -/
def written_back (s s2 : State) (q : Int) (e : pt_entry) (buf : Block) : Prop :=
  (Int.land e.bits PROT_WRITE ≠ 0 →
    read_at s2.disk q = .ok buf ∧ s2.disk_writes = int_incr s.disk_writes ∧
    ∀ q2, q2 ≠ q → read_at s2.disk q2 = read_at s.disk q2) ∧
  (Int.land e.bits PROT_WRITE = 0 → s2.disk = s.disk ∧ s2.disk_writes = s.disk_writes)

/-- From state `s3`, after any faults on pages other than `q`, the next fault on `q`
is a missing-page fault that returns with `q` mapped, with permission `PROT_READ`,
to a frame holding `buf`. -/
def reloads (s3 : State) (q : Int) (buf : Block) : Prop :=
  ∀ (evs : List (Int × Int)) (rnd : Int),
    (∀ ev ∈ evs, valid_fault s3.pt.length ev ∧ ev.1 ≠ q) → 0 ≤ rnd →
    ∃ s4 s5 e4 e5, run s3 evs = .ok s4 ∧ read_at s4.pt q = .ok e4 ∧ e4.bits = 0 ∧
      page_fault_handler s4 q rnd = .ok s5 ∧
      read_at s5.pt q = .ok e5 ∧ e5.bits = PROT_READ ∧ read_at s5.physmem e5.frame = .ok buf

/-- The state after faults on pages 0, 0, 1 on two frames under FIFO: page 0 is
resident in frame 0 with `PROT_READ|PROT_WRITE`, page 1 in frame 1 with `PROT_READ`. -/
def two_resident_state : State :=
  { nframes := 2, disk_reads := 2, disk_writes := 0, page_faults := 3,
    physmem := [[10], [11]], disk := [[10], [11], [12]], free_frames := [1, 1],
    frames_info := [0, 1], page_algo := .FIFO, fifo := [⟨0, 1⟩, ⟨1, 1⟩], lru := [],
    pt := [⟨0, 3⟩, ⟨1, 1⟩, ⟨0, 0⟩] }

/-- The test at the head of `page_fault_handler`: the fault on `page` is a
missing-page fault (neither `PROT_READ` nor `PROT_WRITE` is set). -/
def is_missing (s : State) (page : Int) : Bool :=
  match read_at s.pt page with
  | .ok e => decide (Int.land e.bits PROT_READ = 0 ∧ Int.land e.bits PROT_WRITE = 0)
  | .error _ => false

/-- Page `p` is the only resident page, mapped to frame 0 with permission exactly
`PROT_READ`. -/
def sole_resident (s : State) (p : Int) : Prop :=
  read_at s.pt p = .ok ⟨0, PROT_READ⟩ ∧
  ∀ q e, read_at s.pt q = .ok e → e.bits ≠ 0 → q = p

/-- The one-frame state reached under the random policy from the initial state by
a fault on page 0 followed by a second fault on page 0: page 0 is resident in
frame 0 with permission `PROT_READ|PROT_WRITE`. -/
def one_frame_state : State :=
  { nframes := 1, disk_reads := 1, disk_writes := 0, page_faults := 2,
    physmem := [[10]], disk := [[10], [11], [12]], free_frames := [1],
    frames_info := [0], page_algo := .RAND, fifo := [], lru := [],
    pt := [⟨0, 3⟩, ⟨0, 0⟩, ⟨0, 0⟩] }

/-- Page `p` is resident: its page-table permission is non-zero. -/
def is_resident (s : State) (p : Int) : Bool :=
  match read_at s.pt p with
  | .ok e => decide (e.bits ≠ 0)
  | .error _ => false

/-- The resident pages in the order in which they were loaded (oldest first),
recorded along a run from the faults alone: a missing-page fault drops the pages
that are no longer resident and appends the faulting page. -/
def load_order : State → List (Int × Int) → List Int → List Int
  | _, [], log => log
  | s, ev :: rest, log =>
    match page_fault_handler s ev.1 ev.2 with
    | .error _ => log
    | .ok s1 =>
      load_order s1 rest
        (if is_missing s ev.1 then log.filter (is_resident s1) ++ [ev.1] else log)

/-- The load order of the resident pages after a run from the initial state. -/
def reach_load_order (npages : Nat) (nframes : Int) (a : algo) (physmem disk : List Block)
    (evs : List (Int × Int)) : List Int :=
  match init_state npages nframes a physmem disk with
  | .error _ => []
  | .ok s0 => load_order s0 evs []

/-- The page recorded as occupant of frame `f`. -/
def occupant (s : State) (f : Int) : Int :=
  match read_at s.frames_info f with
  | .ok p => p
  | .error _ => -1

/-- The example of the FIFO ordering property: with two frames, missing-page faults
for pages 0, 1, 2, 3 evict page 0 at the third fault and page 1 at the fourth. -/
def fifo_two_frame_example : Prop :=
  ∃ s2 s3 s4,
    reach 4 2 .FIFO [[], []] [[10], [11], [12], [13]] [(0, 0), (1, 0)] = .ok s2 ∧
    page_fault_handler s2 2 0 = .ok s3 ∧ page_fault_handler s3 3 0 = .ok s4 ∧
    (is_resident s2 0 = true ∧ is_resident s2 1 = true) ∧
    (is_resident s3 0 = false ∧ is_resident s3 1 = true ∧ is_resident s3 2 = true) ∧
    (is_resident s4 1 = false ∧ is_resident s4 2 = true ∧ is_resident s4 3 = true)

/-- The effect of a missing-page fault on `page` served by evicting page `q` from
frame `v`: `q` was the resident occupant of the occupied frame `v`; afterwards `q`
is unmapped, `page` is mapped to `v` with permission exactly `PROT_READ`,
`frames_info[v] = page`, frame `v` holds the disk content of `page`, and every page
other than `page` and `q` keeps its entry. -/
def evicted_and_loaded (s s2 : State) (page v q : Int) : Prop :=
  read_at s.free_frames v = .ok 1 ∧ read_at s.frames_info v = .ok q ∧
  (∃ eq, read_at s.pt q = .ok eq ∧ eq.bits ≠ 0 ∧ eq.frame = v) ∧
  (∃ eq2, read_at s2.pt q = .ok eq2 ∧ eq2.bits = 0) ∧
  read_at s2.pt page = .ok ⟨v, PROT_READ⟩ ∧
  read_at s2.frames_info v = .ok page ∧
  (∃ blk, read_at s.disk page = .ok blk ∧ read_at s2.disk page = .ok blk ∧
    read_at s2.physmem v = .ok blk) ∧
  s2.disk_reads = int_incr s.disk_reads ∧
  (∀ p2, p2 ≠ page → p2 ≠ q → read_at s2.pt p2 = read_at s.pt p2)

/-- The effect of a protection fault on `page`, whose entry was `e`: the entry is
rewritten with the same frame and permission `bits`; the disk, the physical memory,
the disk counters, the frame table and every other page's entry are unchanged. -/
def permission_rewritten (s s2 : State) (page : Int) (e : pt_entry) (bits : Int) : Prop :=
  read_at s2.pt page = .ok ⟨e.frame, bits⟩ ∧
  s2.disk_reads = s.disk_reads ∧ s2.disk_writes = s.disk_writes ∧
  s2.disk = s.disk ∧ s2.physmem = s.physmem ∧
  s2.free_frames = s.free_frames ∧ s2.frames_info = s.frames_info ∧
  s2.page_faults = int_incr s.page_faults ∧
  (∀ q, q ≠ page → read_at s2.pt q = read_at s.pt q)

/-- The frames in the order of their most recent load (oldest first), recorded
along a run from the faults alone: a missing-page fault moves the frame the
faulting page is loaded into to the end; a protection fault changes nothing. -/
def frame_load_order : State → List (Int × Int) → List Int → List Int
  | _, [], log => log
  | s, ev :: rest, log =>
    match page_fault_handler s ev.1 ev.2 with
    | .error _ => log
    | .ok s1 =>
      match read_at s1.pt ev.1 with
      | .error _ => log
      | .ok e =>
        frame_load_order s1 rest
          (if is_missing s ev.1 then log.erase e.frame ++ [e.frame] else log)

/-- The load order of the frames after a run from the initial state. -/
def reach_frame_load_order (npages : Nat) (nframes : Int) (a : algo)
    (physmem disk : List Block) (evs : List (Int × Int)) : List Int :=
  match init_state npages nframes a physmem disk with
  | .error _ => []
  | .ok s0 => frame_load_order s0 evs []

/-- A state with one frame, occupied by page 0, in which neither policy list
tracks that frame: no frame is free and the policy has no victim to offer. -/
def no_victim_state (a : algo) : State :=
  { nframes := 1, disk_reads := 1, disk_writes := 0, page_faults := 1,
    physmem := [[10]], disk := [[10], [11]], free_frames := [1],
    frames_info := [0], page_algo := a, fifo := [], lru := [],
    pt := [⟨0, 1⟩, ⟨0, 0⟩] }

/-! ## The state in which a call ends

`page_fault_handler` and the functions it calls once more, statement by statement
in the order of `main.c`, this time keeping the globals and the page table as they
stand when the process ends: a call that does not return yields the fault together
with the state at that moment. -/

/-- A step that fails ends the process in the state `s` in which it was attempted. -/
def at_state {α : Type} (s : State) (r : Except Fault α) : Except (Fault × State) α :=
  match r with
  | .ok a => .ok a
  | .error f => .error (f, s)

/-- The outcome without the final state. -/
def forget_state {α : Type} (r : Except (Fault × State) α) : Except Fault α :=
  match r with
  | .ok a => .ok a
  | .error x => .error x.1

/-- `replace_page`, with the state in which it ends. -/
def replace_page_traced (s : State) (page removed_frame_id : Int) :
    Except (Fault × State) State := do
  let removed_page ← at_state s (read_at s.frames_info removed_frame_id)
  let e ← at_state s (page_table_get_entry s.pt removed_page)
  let removed_frame := e.frame
  let removed_bits := e.bits
  let s ← (if Int.land removed_bits PROT_WRITE ≠ 0 then do
      let buf ← at_state s (read_at s.physmem removed_frame)
      let d ← at_state s (disk_write s.disk removed_page buf)
      pure { s with disk := d, disk_writes := int_incr s.disk_writes }
    else pure s : Except (Fault × State) State)
  let pt ← at_state s (page_table_set_entry s.pt removed_page 0 0)
  let s := { s with pt := pt }
  let pt ← at_state s (page_table_set_entry s.pt page removed_frame (Int.lor 0 PROT_READ))
  let s := { s with pt := pt }
  let blk ← at_state s (disk_read s.disk page)
  let pm ← at_state s (write_at s.physmem removed_frame blk)
  let s := { s with physmem := pm, disk_reads := int_incr s.disk_reads }
  let fi ← at_state s (write_at s.frames_info removed_frame page)
  pure { s with frames_info := fi }

/-- `fifo_replace_page`, with the state in which it ends. -/
def fifo_replace_page_traced (s : State) (page : Int) : Except (Fault × State) State :=
  let r := remove_first_node s.fifo
  let removed_frame_id := r.1
  let s := { s with fifo := r.2 }
  if removed_frame_id < 0 then .error (.exit1, s)
  else do
    let s ← replace_page_traced s page removed_frame_id
    pure { s with fifo := add_node s.fifo removed_frame_id }

/-- `lru_replace_page`, with the state in which it ends. -/
def lru_replace_page_traced (s : State) (page : Int) : Except (Fault × State) State :=
  match lru_scan none s.lru with
  | none => .error (.undefined, s)
  | some lru_frame => do
    let removed_frame_id := lru_frame.id
    let s ← replace_page_traced s page removed_frame_id
    pure { s with lru := update_access s.lru removed_frame_id }

/-- `rand_replace_page`, with the state in which it ends. -/
def rand_replace_page_traced (s : State) (page rnd : Int) : Except (Fault × State) State :=
  if s.nframes = 0 then .error (.undefined, s)
  else replace_page_traced s page (Int.tmod rnd s.nframes)

/-- `page_fault_handler`, with the state in which it ends. -/
def page_fault_handler_traced (s : State) (page rnd : Int) : Except (Fault × State) State := do
  let s := { s with page_faults := int_incr s.page_faults }
  let e ← at_state s (page_table_get_entry s.pt page)
  let curr_frame := e.frame
  let curr_bits := e.bits
  if Int.land curr_bits PROT_READ = 0 ∧ Int.land curr_bits PROT_WRITE = 0 then do
    let r ← at_state s (select_free_frame s.nframes s.free_frames)
    let frame := r.1
    let s := { s with free_frames := r.2 }
    if frame < 0 then
      match s.page_algo with
      | .FIFO => fifo_replace_page_traced s page
      | .RAND => rand_replace_page_traced s page rnd
      | .CUSTOM => lru_replace_page_traced s page
    else do
      let pt ← at_state s (page_table_set_entry s.pt page frame (Int.lor 0 PROT_READ))
      let s := { s with pt := pt }
      let s := match s.page_algo with
        | .FIFO => { s with fifo := add_node s.fifo frame }
        | .RAND => s
        | .CUSTOM => { s with lru := update_access (add_node s.lru frame) frame }
      let blk ← at_state s (disk_read s.disk page)
      let pm ← at_state s (write_at s.physmem frame blk)
      let s := { s with physmem := pm, disk_reads := int_incr s.disk_reads }
      let fi ← at_state s (write_at s.frames_info frame page)
      pure { s with frames_info := fi }
  else do
    let pt ← at_state s (if Int.land curr_bits PROT_READ = 1 ∧ Int.land curr_bits PROT_WRITE = 0 then
        page_table_set_entry s.pt page curr_frame (Int.lor curr_bits PROT_WRITE)
      else
        page_table_set_entry s.pt page curr_frame (Int.lor curr_bits PROT_READ))
    let s := { s with pt := pt }
    pure (if s.page_algo = .CUSTOM then { s with lru := update_access s.lru curr_frame } else s)

/-! ## Checked array accesses -/

@[simp] theorem ok_bind {α β : Type} (a : α) (f : α → Except Fault β) :
    (Except.ok a >>= f) = f a := rfl

@[simp] theorem error_bind {α β : Type} (e : Fault) (f : α → Except Fault β) :
    ((Except.error e : Except Fault α) >>= f) = .error e := rfl

@[simp] theorem pure_eq_ok {α : Type} (a : α) : (pure a : Except Fault α) = .ok a := rfl

theorem read_at_ok_iff {α : Type} (l : List α) (i : Int) (a : α) :
    read_at l i = .ok a ↔ 0 ≤ i ∧ l[i.toNat]? = some a := by
  unfold read_at
  split_ifs with h
  · cases hl : l[i.toNat]? <;> simp [h]
  · simp [h]

theorem read_at_bounds {α : Type} {l : List α} {i : Int} {a : α} (h : read_at l i = .ok a) :
    0 ≤ i ∧ i < l.length := by
  rw [read_at_ok_iff] at h
  obtain ⟨h0, h1⟩ := h
  obtain ⟨hlt, -⟩ := List.getElem?_eq_some.mp h1
  exact ⟨h0, by omega⟩

theorem read_at_exists {α : Type} (l : List α) (i : Int) (h0 : 0 ≤ i) (h1 : i < l.length) :
    ∃ a, read_at l i = .ok a := by
  have hlt : i.toNat < l.length := by omega
  exact ⟨l[i.toNat], (read_at_ok_iff l i _).mpr ⟨h0, List.getElem?_eq_getElem hlt⟩⟩

theorem write_at_ok_iff {α : Type} (l : List α) (i : Int) (a : α) (l2 : List α) :
    write_at l i a = .ok l2 ↔ (0 ≤ i ∧ i < l.length) ∧ l2 = l.set i.toNat a := by
  unfold write_at
  by_cases h : 0 ≤ i ∧ i.toNat < l.length
  · have h2 : 0 ≤ i ∧ i < l.length := ⟨h.1, by omega⟩
    simp only [h, and_self, if_true, Except.ok.injEq, h2, true_and]
    exact eq_comm
  · have h2 : ¬ (0 ≤ i ∧ i < (l.length : Int)) := fun hh => h ⟨hh.1, by omega⟩
    simp [h, h2]

theorem write_at_exists {α : Type} (l : List α) (i : Int) (a : α) (h0 : 0 ≤ i)
    (h1 : i < l.length) : write_at l i a = .ok (l.set i.toNat a) :=
  (write_at_ok_iff l i a _).mpr ⟨⟨h0, h1⟩, rfl⟩

theorem read_at_set_self {α : Type} (l : List α) (i : Int) (a : α) (h0 : 0 ≤ i)
    (h1 : i < l.length) : read_at (l.set i.toNat a) i = .ok a := by
  rw [read_at_ok_iff]
  exact ⟨h0, List.getElem?_set_self (by omega)⟩

theorem read_at_set_ne {α : Type} (l : List α) (i j : Int) (a : α) (h0 : 0 ≤ i) (hne : j ≠ i) :
    read_at (l.set i.toNat a) j = read_at l j := by
  unfold read_at
  split_ifs with h
  · have : i.toNat ≠ j.toNat := by omega
    rw [List.getElem?_set_ne this]
  · rfl

theorem read_at_replicate {α : Type} (n : Nat) (a : α) (i : Int) (h0 : 0 ≤ i) (h1 : i < n) :
    read_at (List.replicate n a) i = .ok a := by
  rw [read_at_ok_iff]
  refine ⟨h0, ?_⟩
  rw [List.getElem?_replicate, if_pos (by omega)]

theorem read_at_replicate_ok {α : Type} {n : Nat} {a b : α} {i : Int}
    (h : read_at (List.replicate n a) i = .ok b) : b = a := by
  have hb := read_at_bounds h
  simp only [List.length_replicate] at hb
  rw [read_at_replicate n a i hb.1 hb.2] at h
  exact (Except.ok.inj h).symm

/-! ## `select_free_frame` -/

theorem select_free_frame_from_spec (ff : List Int) :
    ∀ (k : Nat) (i : Int), 0 ≤ i → i + k ≤ ff.length →
      (∃ j, i ≤ j ∧ j < i + k ∧ read_at ff j = .ok 0 ∧
          (∀ j2, i ≤ j2 → j2 < j → read_at ff j2 ≠ .ok 0) ∧
          select_free_frame_from ff k i = .ok (j, ff.set j.toNat 1)) ∨
      ((∀ j, i ≤ j → j < i + k → read_at ff j ≠ .ok 0) ∧
          select_free_frame_from ff k i = .ok (-1, ff)) := by
  intro k
  induction k with
  | zero =>
    intro i _ _
    right
    exact ⟨fun j h1 h2 => absurd h2 (by simp; omega), rfl⟩
  | succ k ih =>
    intro i h0 hlen
    obtain ⟨v, hv⟩ := read_at_exists ff i h0 (by omega)
    by_cases hz : v = 0
    · left
      subst hz
      refine ⟨i, le_refl _, by omega, hv, fun j2 h1 h2 => absurd h2 (by omega), ?_⟩
      simp [select_free_frame_from, hv, write_at_exists ff i 1 h0 (by omega)]
    · have hstep : select_free_frame_from ff (k + 1) i = select_free_frame_from ff k (i + 1) := by
        simp [select_free_frame_from, hv, hz]
      have hi : read_at ff i ≠ .ok 0 := by
        rw [hv]
        intro h
        exact hz (Except.ok.inj h)
      rcases ih (i + 1) (by omega) (by push_cast at hlen ⊢; omega) with
        ⟨j, hj1, hj2, hj3, hj4, hj5⟩ | ⟨hall, hres⟩
      · left
        refine ⟨j, by omega, by push_cast; omega, hj3, ?_, by rw [hstep, hj5]⟩
        intro j2 h1 h2
        by_cases hji : j2 = i
        · subst hji; exact hi
        · exact hj4 j2 (by omega) h2
      · right
        refine ⟨?_, by rw [hstep, hres]⟩
        intro j h1 h2
        by_cases hji : j = i
        · subst hji; exact hi
        · exact hall j (by omega) (by push_cast at h2; omega)

/-- The two possible results of `select_free_frame` on an array of `nframes` cells. -/
theorem select_free_frame_cases (nframes : Int) (ff : List Int) (hlen : (ff.length : Int) = nframes) :
    (∃ j, 0 ≤ j ∧ j < nframes ∧ read_at ff j = .ok 0 ∧
        (∀ j2, 0 ≤ j2 → j2 < j → read_at ff j2 ≠ .ok 0) ∧
        select_free_frame nframes ff = .ok (j, ff.set j.toNat 1)) ∨
    ((∀ j, 0 ≤ j → j < nframes → read_at ff j ≠ .ok 0) ∧
        select_free_frame nframes ff = .ok (-1, ff)) := by
  have h := select_free_frame_from_spec ff nframes.toNat 0 (le_refl _) (by omega)
  have e : (0 : Int) + (nframes.toNat : Int) = nframes := by omega
  rw [e] at h
  exact h

/-- C9: on a `free_frames` array of `nframes` cells, `select_free_frame` either
finds the smallest index `i` whose cell is `0` and returns `i` together with the
array in which exactly cell `i` has been set to `1` (every other cell and the length
are unchanged), or finds no cell equal to `0` and returns `-1` with the array
unchanged; and it returns `-1` if and only if no cell is `0`. -/
theorem c9_select_free_frame (nframes : Int) (ff : List Int)
    (hlen : (ff.length : Int) = nframes) :
    ((∃ i, 0 ≤ i ∧ i < nframes ∧ read_at ff i = .ok 0 ∧
        (∀ j, 0 ≤ j → j < i → read_at ff j ≠ .ok 0) ∧
        select_free_frame nframes ff = .ok (i, ff.set i.toNat 1) ∧
        read_at (ff.set i.toNat 1) i = .ok 1 ∧
        (ff.set i.toNat 1).length = ff.length ∧
        (∀ j, j ≠ i → read_at (ff.set i.toNat 1) j = read_at ff j)) ∨
      ((∀ j, 0 ≤ j → j < nframes → read_at ff j ≠ .ok 0) ∧
        select_free_frame nframes ff = .ok (-1, ff))) ∧
    ((∃ ff2, select_free_frame nframes ff = .ok (-1, ff2)) ↔
      (∀ j, 0 ≤ j → j < nframes → read_at ff j ≠ .ok 0)) := by
  rcases select_free_frame_cases nframes ff hlen with ⟨j, h0, h1, h2, h3, h4⟩ | ⟨hall, hres⟩
  · refine ⟨Or.inl ⟨j, h0, h1, h2, h3, h4, read_at_set_self ff j 1 h0 (by omega),
      List.length_set _ _ _, fun j2 hne => read_at_set_ne ff j j2 1 h0 hne⟩, ?_, ?_⟩
    · rintro ⟨ff2, hr⟩
      rw [h4] at hr
      simp only [Except.ok.injEq, Prod.mk.injEq] at hr
      omega
    · intro hall
      exact absurd h2 (hall j h0 h1)
  · exact ⟨Or.inr ⟨hall, hres⟩, fun _ => hall, fun _ => ⟨ff, hres⟩⟩

/-- C9 at `free_frames = [1, 0, 0]`: the array has three cells, and the theorem
forces the result: index `1` is returned and the array becomes `[1, 1, 0]`. -/
theorem c9_select_free_frame_witness :
    ((([1, 0, 0] : List Int).length : Int) = 3) ∧
    select_free_frame 3 ([1, 0, 0] : List Int) = .ok (1, [1, 1, 0]) := by
  refine ⟨by decide, ?_⟩
  rcases (c9_select_free_frame 3 [1, 0, 0] (by decide)).1 with
    ⟨i, h0, h1, h2, h3, h4, -⟩ | ⟨hall, -⟩
  · have hi : i = 1 := by
      have h5 := h3 1 (by decide)
      have hne0 : i ≠ 0 := by
        rintro rfl
        simp [read_at] at h2
      by_contra hne
      have hi2 : i = 2 := by omega
      subst hi2
      exact h5 (by decide) rfl
    subst hi
    exact h4
  · exact absurd rfl (hall 1 (by decide) (by decide))

/-! ## The branches of the handler -/

theorem replace_page_eq (s : State) (page v q : Int) (e : pt_entry) (buf blk : Block)
    (hq : read_at s.frames_info v = .ok q) (he : read_at s.pt q = .ok e)
    (hbuf : read_at s.physmem e.frame = .ok buf)
    (hqd : q < s.disk.length)
    (hpage : 0 ≤ page ∧ page < s.pt.length)
    (hblk : read_at (if Int.land e.bits PROT_WRITE ≠ 0 then s.disk.set q.toNat buf else s.disk)
      page = .ok blk)
    (hfi : e.frame < s.frames_info.length) :
    replace_page s page v = .ok { s with
      disk := if Int.land e.bits PROT_WRITE ≠ 0 then s.disk.set q.toNat buf else s.disk,
      disk_writes := if Int.land e.bits PROT_WRITE ≠ 0 then int_incr s.disk_writes else s.disk_writes,
      pt := (s.pt.set q.toNat ⟨0, 0⟩).set page.toNat ⟨e.frame, 1⟩,
      physmem := s.physmem.set e.frame.toNat blk,
      disk_reads := int_incr s.disk_reads,
      frames_info := s.frames_info.set e.frame.toNat page } := by
  have hqb := read_at_bounds he
  have hpm := read_at_bounds hbuf
  by_cases hd : Int.land e.bits PROT_WRITE ≠ 0
  · rw [if_pos hd] at hblk
    simp only [replace_page, hq, ok_bind, page_table_get_entry, he, hd, ne_eq,
      not_false_eq_true, if_true, pure_eq_ok, page_table_set_entry, disk_read, hblk, hbuf,
      disk_write,
      write_at_exists s.disk q buf hqb.1 hqd,
      write_at_exists s.pt q _ hqb.1 hqb.2,
      write_at_exists (s.pt.set q.toNat ⟨0, 0⟩) page _ hpage.1 (by simpa using hpage.2),
      write_at_exists s.physmem e.frame _ hpm.1 hpm.2,
      write_at_exists s.frames_info e.frame _ hpm.1 hfi]
    rfl
  · rw [if_neg hd] at hblk
    simp only [replace_page, hq, ok_bind, page_table_get_entry, he, hd, ne_eq,
      if_false, pure_eq_ok, page_table_set_entry, disk_read, hblk,
      write_at_exists s.pt q _ hqb.1 hqb.2,
      write_at_exists (s.pt.set q.toNat ⟨0, 0⟩) page _ hpage.1 (by simpa using hpage.2),
      write_at_exists s.physmem e.frame _ hpm.1 hpm.2,
      write_at_exists s.frames_info e.frame _ hpm.1 hfi]
    rfl

theorem handler_prot_eq (s : State) (page rnd : Int) (e : pt_entry)
    (he : read_at s.pt page = .ok e)
    (hres : ¬ (Int.land e.bits PROT_READ = 0 ∧ Int.land e.bits PROT_WRITE = 0)) :
    page_fault_handler s page rnd = .ok { s with
      page_faults := int_incr s.page_faults,
      pt := s.pt.set page.toNat ⟨e.frame,
        if Int.land e.bits PROT_READ = 1 ∧ Int.land e.bits PROT_WRITE = 0
        then Int.lor e.bits PROT_WRITE else Int.lor e.bits PROT_READ⟩,
      lru := if s.page_algo = .CUSTOM then update_access s.lru e.frame else s.lru } := by
  have hb := read_at_bounds he
  simp only [page_fault_handler, page_table_get_entry, he, ok_bind, hres, if_false,
    page_table_set_entry]
  by_cases hc : Int.land e.bits PROT_READ = 1 ∧ Int.land e.bits PROT_WRITE = 0
  · simp only [hc, and_self, if_true, write_at_exists s.pt page _ hb.1 hb.2, ok_bind, pure_eq_ok]
    by_cases ha : s.page_algo = .CUSTOM <;> simp [ha]
  · simp only [hc, if_false, write_at_exists s.pt page _ hb.1 hb.2, ok_bind, pure_eq_ok]
    by_cases ha : s.page_algo = .CUSTOM <;> simp [ha]

theorem handler_free_eq (s : State) (page rnd f : Int) (e : pt_entry) (ff : List Int)
    (blk : Block)
    (he : read_at s.pt page = .ok e)
    (hmiss : Int.land e.bits PROT_READ = 0 ∧ Int.land e.bits PROT_WRITE = 0)
    (hsel : select_free_frame s.nframes s.free_frames = .ok (f, ff))
    (hf : 0 ≤ f)
    (hblk : read_at s.disk page = .ok blk)
    (hpm : f < s.physmem.length) (hfi : f < s.frames_info.length) :
    page_fault_handler s page rnd = .ok { s with
      page_faults := int_incr s.page_faults,
      free_frames := ff,
      pt := s.pt.set page.toNat ⟨f, 1⟩,
      fifo := if s.page_algo = .FIFO then add_node s.fifo f else s.fifo,
      lru := if s.page_algo = .CUSTOM then update_access (add_node s.lru f) f else s.lru,
      physmem := s.physmem.set f.toNat blk,
      disk_reads := int_incr s.disk_reads,
      frames_info := s.frames_info.set f.toNat page } := by
  have hb := read_at_bounds he
  have hnf : ¬ f < 0 := by omega
  simp only [page_fault_handler, page_table_get_entry, he, ok_bind, hmiss, and_self, if_true,
    hsel, hnf, if_false, page_table_set_entry, write_at_exists s.pt page _ hb.1 hb.2]
  cases ha : s.page_algo <;>
    simp [ha, disk_read, hblk, write_at_exists s.physmem f _ hf hpm,
      write_at_exists s.frames_info f _ hf hfi] <;> rfl

theorem handler_evict_eq (s : State) (page rnd f : Int) (e : pt_entry)
    (he : read_at s.pt page = .ok e)
    (hmiss : Int.land e.bits PROT_READ = 0 ∧ Int.land e.bits PROT_WRITE = 0)
    (hsel : select_free_frame s.nframes s.free_frames = .ok (f, s.free_frames))
    (hf : f < 0) :
    page_fault_handler s page rnd =
      match s.page_algo with
      | .FIFO => fifo_replace_page { s with page_faults := int_incr s.page_faults } page
      | .RAND => rand_replace_page { s with page_faults := int_incr s.page_faults } page rnd
      | .CUSTOM => lru_replace_page { s with page_faults := int_incr s.page_faults } page := by
  simp only [page_fault_handler, page_table_get_entry, he, ok_bind, hmiss, and_self, if_true,
    hsel, hf]

/-! ## The consistency invariant -/

theorem Inv.nframes_pos {s : State} (h : Inv s) : 0 < s.nframes := h.core.nframes_pos

theorem Inv.len_ff {s : State} (h : Inv s) : (s.free_frames.length : Int) = s.nframes :=
  h.core.len_ff

theorem Inv.len_fi {s : State} (h : Inv s) : (s.frames_info.length : Int) = s.nframes :=
  h.core.len_fi

theorem Inv.len_pm {s : State} (h : Inv s) : (s.physmem.length : Int) = s.nframes :=
  h.core.len_pm

theorem Inv.len_disk {s : State} (h : Inv s) : s.disk.length = s.pt.length := h.core.len_disk

theorem Inv.ff01 {s : State} (h : Inv s) :
    ∀ f v, read_at s.free_frames f = .ok v → v = 0 ∨ v = 1 := h.core.ff01

theorem Inv.bits {s : State} (h : Inv s) :
    ∀ p e, read_at s.pt p = .ok e → e.bits = 0 ∨ e.bits = 1 ∨ e.bits = 3 := h.core.bits

theorem Inv.res_frame {s : State} (h : Inv s) :
    ∀ p e, read_at s.pt p = .ok e → e.bits ≠ 0 →
      read_at s.free_frames e.frame = .ok 1 ∧ read_at s.frames_info e.frame = .ok p :=
  h.core.res_frame

theorem Inv.occ_page {s : State} (h : Inv s) :
    ∀ f, read_at s.free_frames f = .ok 1 →
      ∃ p e, read_at s.frames_info f = .ok p ∧ read_at s.pt p = .ok e ∧ e.bits ≠ 0 ∧
        e.frame = f :=
  h.core.occ_page

theorem ids_add_node (l : List node_t) (n : Int) : ids (add_node l n) = ids l ++ [n] := by
  simp [ids, add_node, create_node]

theorem ids_update_access (l : List node_t) (n : Int) : ids (update_access l n) = ids l := by
  unfold ids update_access
  rw [List.map_map]
  apply List.map_congr_left
  intro a _
  by_cases h : a.id = n <;> simp [h]

theorem read_at_set {α : Type} (l : List α) (i j : Int) (a b : α)
    (h : read_at (l.set i.toNat a) j = .ok b) (h0 : 0 ≤ i) :
    (j = i ∧ b = a) ∨ (j ≠ i ∧ read_at l j = .ok b) := by
  by_cases hji : j = i
  · subst hji
    left
    have hb := read_at_bounds h
    rw [List.length_set] at hb
    rw [read_at_set_self l j a hb.1 hb.2] at h
    exact ⟨rfl, (Except.ok.inj h).symm⟩
  · right
    rw [read_at_set_ne l i j a h0 hji] at h
    exact ⟨hji, h⟩

theorem Inv_resident_of_not_missing {s : State} (hI : Inv s) {p : Int} {e : pt_entry}
    (he : read_at s.pt p = .ok e)
    (hres : ¬ (Int.land e.bits PROT_READ = 0 ∧ Int.land e.bits PROT_WRITE = 0)) :
    e.bits = 1 ∨ e.bits = 3 := by
  rcases hI.bits p e he with h | h | h
  · exfalso
    apply hres
    rw [h]
    decide
  · exact Or.inl h
  · exact Or.inr h

theorem Inv_missing_bits {s : State} (hI : Inv s) {p : Int} {e : pt_entry}
    (he : read_at s.pt p = .ok e)
    (hmiss : Int.land e.bits PROT_READ = 0 ∧ Int.land e.bits PROT_WRITE = 0) :
    e.bits = 0 := by
  rcases hI.bits p e he with h | h | h
  · exact h
  · rw [h] at hmiss; exact absurd hmiss.1 (by decide)
  · rw [h] at hmiss; exact absurd hmiss.1 (by decide)

theorem prot_bits_cases (b : Int) (hb : b = 1 ∨ b = 3) :
    (if Int.land b PROT_READ = 1 ∧ Int.land b PROT_WRITE = 0 then Int.lor b PROT_WRITE
      else Int.lor b PROT_READ) = 3 := by
  rcases hb with h | h <;> subst h <;> decide

/-- A protection fault preserves the invariant. -/
theorem Inv_prot (s : State) (hI : Inv s) (page : Int) (e : pt_entry)
    (he : read_at s.pt page = .ok e) (hb : e.bits = 1 ∨ e.bits = 3) :
    Inv { s with
      page_faults := int_incr s.page_faults,
      pt := s.pt.set page.toNat ⟨e.frame, 3⟩,
      lru := if s.page_algo = .CUSTOM then update_access s.lru e.frame else s.lru } := by
  have hpb := read_at_bounds he
  have hne : e.bits ≠ 0 := by rcases hb with h | h <;> rw [h] <;> decide
  refine ⟨⟨hI.nframes_pos, hI.len_ff, hI.len_fi, hI.len_pm, ?_, hI.ff01, ?_, ?_, ?_⟩,
    hI.fifo_inv, ?_⟩
  · simpa using hI.len_disk
  · intro p e2 h2
    rcases read_at_set _ _ _ _ _ h2 hpb.1 with ⟨-, h⟩ | ⟨-, h⟩
    · subst h; right; right; rfl
    · exact hI.bits p e2 h
  · intro p e2 h2 hne2
    rcases read_at_set _ _ _ _ _ h2 hpb.1 with ⟨h1, h⟩ | ⟨-, h⟩
    · subst h; subst h1
      exact hI.res_frame p e he hne
    · exact hI.res_frame p e2 h hne2
  · intro f hf
    obtain ⟨p, e2, h1, h2, h3, h4⟩ := hI.occ_page f hf
    by_cases hp : p = page
    · subst hp
      rw [he] at h2
      cases h2
      exact ⟨p, ⟨e.frame, 3⟩, h1, read_at_set_self _ _ _ hpb.1 hpb.2, by simp, h4⟩
    · exact ⟨p, e2, h1, by
        show read_at (s.pt.set page.toNat _) p = _
        rw [read_at_set_ne _ _ _ _ hpb.1 hp]; exact h2, h3, h4⟩
  · intro ha
    have ha2 : s.page_algo = .CUSTOM := ha
    have := hI.lru_inv ha2
    simp only [ha2, if_true, ids_update_access]
    exact this

theorem read_at_set_iff {α : Type} (l : List α) (i j : Int) (a b : α) (h0 : 0 ≤ i)
    (h1 : i < l.length) :
    read_at (l.set i.toNat a) j = .ok b ↔ (j = i ∧ b = a) ∨ (j ≠ i ∧ read_at l j = .ok b) := by
  constructor
  · intro h
    exact read_at_set l i j a b h h0
  · rintro (⟨h2, h3⟩ | ⟨h2, h3⟩)
    · subst h2; subst h3
      exact read_at_set_self l j b h0 h1
    · rw [read_at_set_ne l i j a h0 h2]
      exact h3

theorem policy_inv_append (l : List Int) (ff : List Int) (f : Int) (h0 : 0 ≤ f)
    (h1 : f < ff.length) (hfree : read_at ff f = .ok 0)
    (h : l.Nodup ∧ ∀ g, g ∈ l ↔ read_at ff g = .ok 1) :
    (l ++ [f]).Nodup ∧ ∀ g, g ∈ l ++ [f] ↔ read_at (ff.set f.toNat 1) g = .ok 1 := by
  have hnot : f ∉ l := by
    intro hm
    have := (h.2 f).mp hm
    rw [hfree] at this
    exact absurd (Except.ok.inj this) (by decide)
  constructor
  · rw [List.nodup_append]
    refine ⟨h.1, List.nodup_singleton f, ?_⟩
    intro a ha hb
    rw [List.mem_singleton] at hb
    subst hb
    exact hnot ha
  · intro g
    rw [read_at_set_iff ff f g 1 1 h0 h1, List.mem_append, List.mem_singleton, h.2 g]
    constructor
    · rintro (hg | hg)
      · right
        refine ⟨?_, hg⟩
        intro hgf
        subst hgf
        rw [hfree] at hg
        exact absurd (Except.ok.inj hg) (by decide)
      · left; exact ⟨hg, rfl⟩
    · rintro (⟨hg, -⟩ | ⟨-, hg⟩)
      · right; exact hg
      · left; exact hg

/-- A missing-page fault served from a free frame preserves the invariant. -/
theorem Inv_free (s : State) (hI : Inv s) (page f : Int) (e : pt_entry) (blk : Block)
    (he : read_at s.pt page = .ok e) (hb : e.bits = 0)
    (hf0 : 0 ≤ f) (hf1 : f < s.nframes) (hfree : read_at s.free_frames f = .ok 0) :
    Inv { s with
      page_faults := int_incr s.page_faults,
      free_frames := s.free_frames.set f.toNat 1,
      pt := s.pt.set page.toNat ⟨f, 1⟩,
      fifo := if s.page_algo = .FIFO then add_node s.fifo f else s.fifo,
      lru := if s.page_algo = .CUSTOM then update_access (add_node s.lru f) f else s.lru,
      physmem := s.physmem.set f.toNat blk,
      disk_reads := int_incr s.disk_reads,
      frames_info := s.frames_info.set f.toNat page } := by
  have hpb := read_at_bounds he
  have hlff : f < s.free_frames.length := by rw [hI.len_ff]; exact hf1
  have hlfi : f < s.frames_info.length := by rw [hI.len_fi]; exact hf1
  refine ⟨⟨hI.nframes_pos, ?_, ?_, ?_, ?_, ?_, ?_, ?_, ?_⟩, ?_, ?_⟩
  · simpa using hI.len_ff
  · simpa using hI.len_fi
  · simpa using hI.len_pm
  · simpa using hI.len_disk
  · intro g v hg
    rcases read_at_set _ _ _ _ _ hg hf0 with ⟨-, h⟩ | ⟨-, h⟩
    · right; exact h
    · exact hI.ff01 g v h
  · intro p e2 h2
    rcases read_at_set _ _ _ _ _ h2 hpb.1 with ⟨-, h⟩ | ⟨-, h⟩
    · subst h; right; left; rfl
    · exact hI.bits p e2 h
  · intro p e2 h2 hne2
    rcases read_at_set _ _ _ _ _ h2 hpb.1 with ⟨h1, h⟩ | ⟨-, h⟩
    · subst h
      exact ⟨read_at_set_self _ _ _ hf0 hlff, by rw [h1]; exact read_at_set_self _ _ _ hf0 hlfi⟩
    · obtain ⟨r1, r2⟩ := hI.res_frame p e2 h hne2
      have hfr : e2.frame ≠ f := by
        intro hh
        rw [hh, hfree] at r1
        exact absurd (Except.ok.inj r1) (by decide)
      exact ⟨by
        show read_at (s.free_frames.set f.toNat 1) e2.frame = _
        rw [read_at_set_ne _ _ _ _ hf0 hfr]; exact r1, by
        show read_at (s.frames_info.set f.toNat page) e2.frame = _
        rw [read_at_set_ne _ _ _ _ hf0 hfr]; exact r2⟩
  · intro g hg
    rcases read_at_set _ _ _ _ _ hg hf0 with ⟨h1, -⟩ | ⟨h1, h⟩
    · subst h1
      exact ⟨page, ⟨g, 1⟩, read_at_set_self _ _ _ hf0 hlfi,
        read_at_set_self _ _ _ hpb.1 hpb.2, by simp, rfl⟩
    · obtain ⟨p, e2, r1, r2, r3, r4⟩ := hI.occ_page g h
      have hp : p ≠ page := by
        intro hh
        subst hh
        rw [he] at r2
        cases r2
        exact r3 hb
      exact ⟨p, e2, by
        show read_at (s.frames_info.set f.toNat page) g = _
        rw [read_at_set_ne _ _ _ _ hf0 h1]; exact r1, by
        show read_at (s.pt.set page.toNat _) p = _
        rw [read_at_set_ne _ _ _ _ hpb.1 hp]; exact r2, r3, r4⟩
  · intro ha
    have ha2 : s.page_algo = .FIFO := ha
    show (ids (if s.page_algo = .FIFO then add_node s.fifo f else s.fifo)).Nodup ∧ ∀ g,
      g ∈ ids (if s.page_algo = .FIFO then add_node s.fifo f else s.fifo) ↔
        read_at (s.free_frames.set f.toNat 1) g = .ok 1
    rw [if_pos ha2, ids_add_node]
    exact policy_inv_append _ _ f hf0 hlff hfree (hI.fifo_inv ha2)
  · intro ha
    have ha2 : s.page_algo = .CUSTOM := ha
    show (ids (if s.page_algo = .CUSTOM then update_access (add_node s.lru f) f
        else s.lru)).Nodup ∧ ∀ g,
      g ∈ ids (if s.page_algo = .CUSTOM then update_access (add_node s.lru f) f else s.lru) ↔
        read_at (s.free_frames.set f.toNat 1) g = .ok 1
    rw [if_pos ha2, ids_update_access, ids_add_node]
    exact policy_inv_append _ _ f hf0 hlff hfree (hI.lru_inv ha2)

/-- Replacing the occupant of an occupied frame keeps the frame table and the page
table consistent, whatever is written to the disk and to the policy lists. -/
theorem Core_evict (s : State) (hC : Core s) (page v q : Int) (e eq : pt_entry)
    (d pm : List Block) (w pf dr : Int) (fifo2 lru2 : List node_t)
    (he : read_at s.pt page = .ok e) (hb : e.bits = 0)
    (hv : read_at s.free_frames v = .ok 1)
    (hq : read_at s.frames_info v = .ok q) (heq : read_at s.pt q = .ok eq)
    (hqb : eq.bits ≠ 0) (hqf : eq.frame = v)
    (hd : d.length = s.disk.length) (hpm : pm.length = s.physmem.length) :
    Core { s with
      page_faults := pf,
      disk := d,
      disk_writes := w,
      pt := (s.pt.set q.toNat ⟨0, 0⟩).set page.toNat ⟨v, 1⟩,
      physmem := pm,
      disk_reads := dr,
      frames_info := s.frames_info.set v.toNat page,
      fifo := fifo2,
      lru := lru2 } := by
  have hpb := read_at_bounds he
  have hqb2 := read_at_bounds heq
  have hvb := read_at_bounds hq
  have hpq : page ≠ q := by
    intro hh
    subst hh
    rw [he] at heq
    cases heq
    exact hqb hb
  have hpl : page < ((s.pt.set q.toNat ⟨0, 0⟩).length : Int) := by
    rw [List.length_set]; exact hpb.2
  refine ⟨hC.nframes_pos, hC.len_ff, ?_, ?_, ?_, hC.ff01, ?_, ?_, ?_⟩
  · simpa using hC.len_fi
  · show (pm.length : Int) = s.nframes
    rw [hpm]; exact hC.len_pm
  · show d.length = ((s.pt.set q.toNat ⟨0, 0⟩).set page.toNat ⟨v, 1⟩).length
    rw [hd, List.length_set, List.length_set]; exact hC.len_disk
  · intro p e2 h2
    rcases read_at_set _ _ _ _ _ h2 hpb.1 with ⟨-, h⟩ | ⟨-, h⟩
    · subst h; right; left; rfl
    · rcases read_at_set _ _ _ _ _ h hqb2.1 with ⟨-, h3⟩ | ⟨-, h3⟩
      · subst h3; left; rfl
      · exact hC.bits p e2 h3
  · intro p e2 h2 hne2
    rcases read_at_set _ _ _ _ _ h2 hpb.1 with ⟨h1, h⟩ | ⟨-, h⟩
    · subst h
      exact ⟨hv, by rw [h1]; exact read_at_set_self _ _ _ hvb.1 hvb.2⟩
    · rcases read_at_set _ _ _ _ _ h hqb2.1 with ⟨-, h3⟩ | ⟨h4, h3⟩
      · subst h3
        exact absurd rfl hne2
      · obtain ⟨r1, r2⟩ := hC.res_frame p e2 h3 hne2
        have hfr : e2.frame ≠ v := by
          intro hh
          rw [hh, hq] at r2
          exact h4 (Except.ok.inj r2).symm
        exact ⟨r1, by
          show read_at (s.frames_info.set v.toNat page) e2.frame = _
          rw [read_at_set_ne _ _ _ _ hvb.1 hfr]; exact r2⟩
  · intro g hg
    by_cases hgv : g = v
    · subst hgv
      exact ⟨page, ⟨g, 1⟩, read_at_set_self _ _ _ hvb.1 hvb.2,
        read_at_set_self _ _ _ hpb.1 hpl, by simp, rfl⟩
    · obtain ⟨p, e2, r1, r2, r3, r4⟩ := hC.occ_page g hg
      have hp : p ≠ page := by
        intro hh
        subst hh
        rw [he] at r2
        cases r2
        exact r3 hb
      have hp2 : p ≠ q := by
        intro hh
        subst hh
        rw [heq] at r2
        cases r2
        exact hgv (r4.symm.trans hqf)
      exact ⟨p, e2, by
        show read_at (s.frames_info.set v.toNat page) g = _
        rw [read_at_set_ne _ _ _ _ hvb.1 hgv]; exact r1, by
        show read_at ((s.pt.set q.toNat _).set page.toNat _) p = _
        rw [read_at_set_ne _ _ _ _ hpb.1 hp, read_at_set_ne _ _ _ _ hqb2.1 hp2]; exact r2,
        r3, r4⟩

/-- Replacing the occupant of an occupied frame preserves the invariant, whatever
is written to the disk and whatever the policy lists become, as long as these keep
the same ids. -/
theorem Inv_evict (s : State) (hI : Inv s) (page v q : Int) (e eq : pt_entry)
    (d pm : List Block) (w pf dr : Int) (fifo2 lru2 : List node_t)
    (he : read_at s.pt page = .ok e) (hb : e.bits = 0)
    (hv : read_at s.free_frames v = .ok 1)
    (hq : read_at s.frames_info v = .ok q) (heq : read_at s.pt q = .ok eq)
    (hqb : eq.bits ≠ 0) (hqf : eq.frame = v)
    (hd : d.length = s.disk.length) (hpm : pm.length = s.physmem.length)
    (hfifo : s.page_algo = .FIFO → (ids fifo2).Nodup ∧ ∀ g, g ∈ ids fifo2 ↔ g ∈ ids s.fifo)
    (hlru : s.page_algo = .CUSTOM → (ids lru2).Nodup ∧ ∀ g, g ∈ ids lru2 ↔ g ∈ ids s.lru) :
    Inv { s with
      page_faults := pf,
      disk := d,
      disk_writes := w,
      pt := (s.pt.set q.toNat ⟨0, 0⟩).set page.toNat ⟨v, 1⟩,
      physmem := pm,
      disk_reads := dr,
      frames_info := s.frames_info.set v.toNat page,
      fifo := fifo2,
      lru := lru2 } := by
  refine ⟨Core_evict s hI.core page v q e eq d pm w pf dr fifo2 lru2 he hb hv hq heq hqb hqf
    hd hpm, ?_, ?_⟩
  · intro ha
    have ha2 : s.page_algo = .FIFO := ha
    obtain ⟨n1, n2⟩ := hfifo ha2
    exact ⟨n1, fun g => (n2 g).trans ((hI.fifo_inv ha2).2 g)⟩
  · intro ha
    have ha2 : s.page_algo = .CUSTOM := ha
    obtain ⟨n1, n2⟩ := hlru ha2
    exact ⟨n1, fun g => (n2 g).trans ((hI.lru_inv ha2).2 g)⟩

/-! ## The victim of each policy -/

theorem algo_cases (a : algo) : a = .FIFO ∨ a = .RAND ∨ a = .CUSTOM := by
  cases a <;> simp


theorem lru_scan_some (l : List node_t) :
    ∀ b : node_t, ∃ n, lru_scan (some b) l = some n ∧ (n = b ∨ n ∈ l) := by
  induction l with
  | nil => intro b; exact ⟨b, rfl, Or.inl rfl⟩
  | cons c rest ih =>
    intro b
    by_cases h : c.lru > b.lru
    · obtain ⟨n, h1, h2⟩ := ih c
      refine ⟨n, by simp [lru_scan, h, h1], ?_⟩
      rcases h2 with h2 | h2
      · right; rw [h2]; exact List.mem_cons_self _ _
      · right; exact List.mem_cons_of_mem _ h2
    · obtain ⟨n, h1, h2⟩ := ih b
      refine ⟨n, by simp [lru_scan, h, h1], ?_⟩
      rcases h2 with h2 | h2
      · left; exact h2
      · right; exact List.mem_cons_of_mem _ h2

theorem lru_scan_none (l : List node_t) (hl : l ≠ []) :
    ∃ n, lru_scan none l = some n ∧ n ∈ l := by
  cases l with
  | nil => exact absurd rfl hl
  | cons c rest =>
    obtain ⟨n, h1, h2⟩ := lru_scan_some rest c
    refine ⟨n, by simp [lru_scan, h1], ?_⟩
    rcases h2 with h2 | h2
    · rw [h2]; exact List.mem_cons_self _ _
    · exact List.mem_cons_of_mem _ h2

theorem mem_ids_of_mem {l : List node_t} {n : node_t} (h : n ∈ l) : n.id ∈ ids l :=
  List.mem_map_of_mem _ h

theorem Inv_full_occupied {s : State} (hI : Inv s)
    (hfull : ∀ j, 0 ≤ j → j < s.nframes → read_at s.free_frames j ≠ .ok 0)
    (j : Int) (h0 : 0 ≤ j) (h1 : j < s.nframes) : read_at s.free_frames j = .ok 1 := by
  obtain ⟨v, hv⟩ := read_at_exists s.free_frames j h0 (by rw [hI.len_ff]; exact h1)
  rcases hI.ff01 j v hv with h | h
  · subst h; exact absurd hv (hfull j h0 h1)
  · subst h; exact hv

/-- With every frame occupied, each policy has a victim, and it is an occupied frame. -/
theorem victim_exists (s : State) (hI : Inv s) (rnd : Int) (hr : 0 ≤ rnd)
    (hfull : ∀ j, 0 ≤ j → j < s.nframes → read_at s.free_frames j ≠ .ok 0) :
    ∃ v, read_at s.free_frames v = .ok 1 ∧
      (s.page_algo = .FIFO → ∃ n rest, s.fifo = n :: rest ∧ n.id = v) ∧
      (s.page_algo = .RAND → v = Int.tmod rnd s.nframes) ∧
      (s.page_algo = .CUSTOM → ∃ n, lru_scan none s.lru = some n ∧ n.id = v) := by
  have h00 := Inv_full_occupied hI hfull 0 (le_refl _) hI.nframes_pos
  rcases algo_cases s.page_algo with ha | ha | ha
  · have hm : (0 : Int) ∈ ids s.fifo := ((hI.fifo_inv ha).2 0).mpr h00
    cases hl : s.fifo with
    | nil => rw [hl] at hm; simp [ids] at hm
    | cons n rest =>
      refine ⟨n.id, ?_, fun _ => ⟨n, rest, rfl, rfl⟩, ?_, ?_⟩
      · apply ((hI.fifo_inv ha).2 n.id).mp
        rw [hl]
        exact mem_ids_of_mem (List.mem_cons_self _ _)
      · intro h; rw [ha] at h; cases h
      · intro h; rw [ha] at h; cases h
  · refine ⟨Int.tmod rnd s.nframes, ?_, ?_, fun _ => rfl, ?_⟩
    · exact Inv_full_occupied hI hfull _ (Int.tmod_nonneg _ hr)
        (Int.tmod_lt_of_pos _ hI.nframes_pos)
    · intro h; rw [ha] at h; cases h
    · intro h; rw [ha] at h; cases h
  · have hm : (0 : Int) ∈ ids s.lru := ((hI.lru_inv ha).2 0).mpr h00
    have hne : s.lru ≠ [] := by
      intro hl
      rw [hl] at hm
      simp [ids] at hm
    obtain ⟨n, h1, h2⟩ := lru_scan_none s.lru hne
    refine ⟨n.id, ?_, ?_, ?_, fun _ => ⟨n, h1, rfl⟩⟩
    · exact ((hI.lru_inv ha).2 n.id).mp (mem_ids_of_mem h2)
    · intro h; rw [ha] at h; cases h
    · intro h; rw [ha] at h; cases h

/-- A missing-page fault with every frame occupied: the call returns, and the new
state is the old one with the victim's occupant written back if dirty and replaced
by the faulting page. -/
theorem handler_evict_ok (s : State) (hI : Inv s) (page rnd : Int) (e : pt_entry)
    (he : read_at s.pt page = .ok e) (hb : e.bits = 0) (hr : 0 ≤ rnd)
    (hfull : ∀ j, 0 ≤ j → j < s.nframes → read_at s.free_frames j ≠ .ok 0) :
    ∃ v q eq buf blk,
      read_at s.free_frames v = .ok 1 ∧ read_at s.frames_info v = .ok q ∧
      read_at s.pt q = .ok eq ∧ eq.bits ≠ 0 ∧ eq.frame = v ∧
      read_at s.physmem v = .ok buf ∧
      read_at (if Int.land eq.bits PROT_WRITE ≠ 0 then s.disk.set q.toNat buf else s.disk)
        page = .ok blk ∧
      ((s.page_algo = .FIFO → ∃ n rest, s.fifo = n :: rest ∧ n.id = v) ∧
       (s.page_algo = .RAND → v = Int.tmod rnd s.nframes) ∧
       (s.page_algo = .CUSTOM → ∃ n, lru_scan none s.lru = some n ∧ n.id = v)) ∧
      page_fault_handler s page rnd = .ok { s with
        page_faults := int_incr s.page_faults,
        disk := if Int.land eq.bits PROT_WRITE ≠ 0 then s.disk.set q.toNat buf else s.disk,
        disk_writes :=
          if Int.land eq.bits PROT_WRITE ≠ 0 then int_incr s.disk_writes else s.disk_writes,
        pt := (s.pt.set q.toNat ⟨0, 0⟩).set page.toNat ⟨v, 1⟩,
        physmem := s.physmem.set v.toNat blk,
        disk_reads := int_incr s.disk_reads,
        frames_info := s.frames_info.set v.toNat page,
        fifo := if s.page_algo = .FIFO then add_node s.fifo.tail v else s.fifo,
        lru := if s.page_algo = .CUSTOM then update_access s.lru v else s.lru } := by
  have hpb := read_at_bounds he
  obtain ⟨v, hv, hpol⟩ := victim_exists s hI rnd hr hfull
  have hvb := read_at_bounds hv
  obtain ⟨q, eq, hq, heq, hqb, hqf⟩ := hI.occ_page v hv
  have hqb2 := read_at_bounds heq
  have hvn : v < s.nframes := by rw [← hI.len_ff]; exact hvb.2
  obtain ⟨buf, hbuf⟩ := read_at_exists s.physmem v hvb.1 (by rw [hI.len_pm]; exact hvn)
  have hdl : ∀ x : Block, ((if Int.land eq.bits PROT_WRITE ≠ 0 then s.disk.set q.toNat x
      else s.disk).length : Int) = s.pt.length := by
    intro x
    split_ifs
    · rw [List.length_set, hI.len_disk]
    · rw [hI.len_disk]
  obtain ⟨blk, hblk⟩ := read_at_exists _ page hpb.1 (by rw [hdl buf]; exact hpb.2)
  refine ⟨v, q, eq, buf, blk, hv, hq, heq, hqb, hqf, hbuf, hblk, hpol, ?_⟩
  have hmiss : Int.land e.bits PROT_READ = 0 ∧ Int.land e.bits PROT_WRITE = 0 := by
    rw [hb]; decide
  have hsel : select_free_frame s.nframes s.free_frames = .ok (-1, s.free_frames) := by
    rcases select_free_frame_cases s.nframes s.free_frames hI.len_ff with
      ⟨j, h0, h1, h2, -, -⟩ | ⟨-, hres⟩
    · exact absurd h2 (hfull j h0 h1)
    · exact hres
  rw [handler_evict_eq s page rnd (-1) e he hmiss hsel (by decide)]
  have hrp : ∀ s1 : State, s1.frames_info = s.frames_info → s1.pt = s.pt →
      s1.physmem = s.physmem → s1.disk = s.disk →
      replace_page s1 page v = .ok { s1 with
        disk := if Int.land eq.bits PROT_WRITE ≠ 0 then s1.disk.set q.toNat buf else s1.disk,
        disk_writes :=
          if Int.land eq.bits PROT_WRITE ≠ 0 then int_incr s1.disk_writes else s1.disk_writes,
        pt := (s1.pt.set q.toNat ⟨0, 0⟩).set page.toNat ⟨eq.frame, 1⟩,
        physmem := s1.physmem.set eq.frame.toNat blk,
        disk_reads := int_incr s1.disk_reads,
        frames_info := s1.frames_info.set eq.frame.toNat page } := by
    intro s1 h1 h2 h3 h4
    apply replace_page_eq s1 page v q eq buf blk
    · rw [h1]; exact hq
    · rw [h2]; exact heq
    · rw [h3, hqf]; exact hbuf
    · rw [h4, hI.len_disk]; exact hqb2.2
    · rw [h2]; exact hpb
    · rw [h4]; exact hblk
    · rw [h1, hqf, hI.len_fi]; exact hvn
  have hvneg : ¬ v < 0 := not_lt.mpr hvb.1
  rcases algo_cases s.page_algo with ha | ha | ha
  · obtain ⟨n, rest, hl, hn⟩ := hpol.1 ha
    have h1 := hrp { s with page_faults := int_incr s.page_faults, fifo := rest, page_algo := .FIFO }
      rfl rfl rfl rfl
    simp only [ha, fifo_replace_page, hl, remove_first_node, hn, hvneg, if_false]
    rw [h1]
    simp [hqf]
  · have hv2 := hpol.2.1 ha
    have hn0 : s.nframes ≠ 0 := ne_of_gt hI.nframes_pos
    have h1 := hrp { s with page_faults := int_incr s.page_faults, page_algo := .RAND }
      rfl rfl rfl rfl
    simp only [ha, rand_replace_page, hn0, if_false, ← hv2]
    rw [h1]
    simp [hqf]
  · obtain ⟨n, hl, hn⟩ := hpol.2.2 ha
    have h1 := hrp { s with page_faults := int_incr s.page_faults, page_algo := .CUSTOM }
      rfl rfl rfl rfl
    simp only [ha, lru_replace_page, hl, hn]
    rw [h1]
    simp [hqf]

/-! ## One fault, by cases -/

/-- From a consistent state every fault on a page of the table returns, and it is
one of: a protection fault, a load into the lowest free frame, an eviction. -/
theorem step_cases (s : State) (hI : Inv s) (page rnd : Int)
    (hp : 0 ≤ page ∧ page < s.pt.length) (hr : 0 ≤ rnd) :
    ∃ e, read_at s.pt page = .ok e ∧
      (((e.bits = 1 ∨ e.bits = 3) ∧
        page_fault_handler s page rnd = .ok { s with
          page_faults := int_incr s.page_faults,
          pt := s.pt.set page.toNat ⟨e.frame, 3⟩,
          lru := if s.page_algo = .CUSTOM then update_access s.lru e.frame else s.lru }) ∨
       (e.bits = 0 ∧ ∃ f blk, 0 ≤ f ∧ f < s.nframes ∧ read_at s.free_frames f = .ok 0 ∧
        (∀ j, 0 ≤ j → j < f → read_at s.free_frames j ≠ .ok 0) ∧
        read_at s.disk page = .ok blk ∧
        page_fault_handler s page rnd = .ok { s with
          page_faults := int_incr s.page_faults,
          free_frames := s.free_frames.set f.toNat 1,
          pt := s.pt.set page.toNat ⟨f, 1⟩,
          fifo := if s.page_algo = .FIFO then add_node s.fifo f else s.fifo,
          lru := if s.page_algo = .CUSTOM then update_access (add_node s.lru f) f else s.lru,
          physmem := s.physmem.set f.toNat blk,
          disk_reads := int_incr s.disk_reads,
          frames_info := s.frames_info.set f.toNat page }) ∨
       (e.bits = 0 ∧ (∀ j, 0 ≤ j → j < s.nframes → read_at s.free_frames j ≠ .ok 0) ∧
        ∃ v q eq buf blk,
          read_at s.free_frames v = .ok 1 ∧ read_at s.frames_info v = .ok q ∧
          read_at s.pt q = .ok eq ∧ eq.bits ≠ 0 ∧ eq.frame = v ∧
          read_at s.physmem v = .ok buf ∧
          read_at (if Int.land eq.bits PROT_WRITE ≠ 0 then s.disk.set q.toNat buf else s.disk)
            page = .ok blk ∧
          ((s.page_algo = .FIFO → ∃ n rest, s.fifo = n :: rest ∧ n.id = v) ∧
           (s.page_algo = .RAND → v = Int.tmod rnd s.nframes) ∧
           (s.page_algo = .CUSTOM → ∃ n, lru_scan none s.lru = some n ∧ n.id = v)) ∧
          page_fault_handler s page rnd = .ok { s with
            page_faults := int_incr s.page_faults,
            disk := if Int.land eq.bits PROT_WRITE ≠ 0 then s.disk.set q.toNat buf else s.disk,
            disk_writes :=
              if Int.land eq.bits PROT_WRITE ≠ 0 then int_incr s.disk_writes else s.disk_writes,
            pt := (s.pt.set q.toNat ⟨0, 0⟩).set page.toNat ⟨v, 1⟩,
            physmem := s.physmem.set v.toNat blk,
            disk_reads := int_incr s.disk_reads,
            frames_info := s.frames_info.set v.toNat page,
            fifo := if s.page_algo = .FIFO then add_node s.fifo.tail v else s.fifo,
            lru := if s.page_algo = .CUSTOM then update_access s.lru v else s.lru })) := by
  obtain ⟨e, he⟩ := read_at_exists s.pt page hp.1 hp.2
  refine ⟨e, he, ?_⟩
  by_cases hmiss : Int.land e.bits PROT_READ = 0 ∧ Int.land e.bits PROT_WRITE = 0
  · right
    have hb := Inv_missing_bits hI he hmiss
    rcases select_free_frame_cases s.nframes s.free_frames hI.len_ff with
      ⟨f, h0, h1, h2, h3, h4⟩ | ⟨hfull, -⟩
    · left
      obtain ⟨blk, hblk⟩ := read_at_exists s.disk page hp.1 (by rw [hI.len_disk]; exact hp.2)
      refine ⟨hb, f, blk, h0, h1, h2, h3, hblk, ?_⟩
      exact handler_free_eq s page rnd f e _ blk he hmiss h4 h0 hblk
        (by rw [hI.len_pm]; exact h1) (by rw [hI.len_fi]; exact h1)
    · right
      exact ⟨hb, hfull, handler_evict_ok s hI page rnd e he hb hr hfull⟩
  · left
    have hb := Inv_resident_of_not_missing hI he hmiss
    refine ⟨hb, ?_⟩
    rw [handler_prot_eq s page rnd e he hmiss, prot_bits_cases e.bits hb]

/-- Every fault on a page of the table preserves the invariant, and returns. -/
theorem Inv_step (s : State) (hI : Inv s) (page rnd : Int)
    (hp : 0 ≤ page ∧ page < s.pt.length) (hr : 0 ≤ rnd) :
    ∃ s2, page_fault_handler s page rnd = .ok s2 ∧ Inv s2 ∧
      s2.pt.length = s.pt.length ∧ s2.nframes = s.nframes ∧ s2.page_algo = s.page_algo := by
  obtain ⟨e, he, hc⟩ := step_cases s hI page rnd hp hr
  rcases hc with ⟨hb, hh⟩ | ⟨hb, f, blk, h0, h1, h2, -, -, hh⟩ |
    ⟨hb, hfull, v, q, eq, buf, blk, hv, hq, heq, hqb, hqf, hbuf, hblk, hpol, hh⟩
  · exact ⟨_, hh, Inv_prot s hI page e he hb, by simp, rfl, rfl⟩
  · exact ⟨_, hh, Inv_free s hI page f e blk he hb h0 h1 h2, by simp, rfl, rfl⟩
  · refine ⟨_, hh, ?_, by simp, rfl, rfl⟩
    apply Inv_evict s hI page v q e eq _ _ _ _ _ _ _ he hb hv hq heq hqb hqf
    · split_ifs <;> simp
    · simp
    · intro ha
      obtain ⟨n, rest, hl, hn⟩ := hpol.1 ha
      have hnd := (hI.fifo_inv ha).1
      rw [if_pos ha, ids_add_node, hl]
      rw [hl] at hnd
      simp only [ids, List.tail_cons, List.map_cons, hn] at hnd ⊢
      constructor
      · rw [List.nodup_cons] at hnd
        rw [List.nodup_append]
        refine ⟨hnd.2, List.nodup_singleton v, ?_⟩
        intro a h1 h2
        rw [List.mem_singleton] at h2
        subst h2
        exact hnd.1 h1
      · intro g
        simp only [List.mem_append, List.mem_singleton, List.mem_cons]
        tauto
    · intro ha
      rw [if_pos ha, ids_update_access]
      exact ⟨(hI.lru_inv ha).1, fun g => Iff.rfl⟩

/-! ## Reachable states -/

theorem init_state_eq (npages : Nat) (nframes : Int) (a : algo) (pm d : List Block)
    (hn : 1 ≤ nframes) :
    init_state npages nframes a pm d = .ok
      { nframes := nframes, disk_reads := 0, disk_writes := 0, page_faults := 0,
        physmem := pm, disk := d, free_frames := List.replicate nframes.toNat 0,
        frames_info := List.replicate nframes.toNat 0,
        page_algo := a, fifo := [], lru := [], pt := List.replicate npages ⟨0, 0⟩ } := by
  have h : nframes > 0 := by omega
  simp [init_state, init_frames, h]

theorem Inv_init (npages : Nat) (nframes : Int) (a : algo) (pm d : List Block)
    (hn : 1 ≤ nframes) (hpm : (pm.length : Int) = nframes) (hd : d.length = npages) :
    Inv { nframes := nframes, disk_reads := 0, disk_writes := 0, page_faults := 0,
          physmem := pm, disk := d, free_frames := List.replicate nframes.toNat 0,
          frames_info := List.replicate nframes.toNat 0,
          page_algo := a, fifo := [], lru := [], pt := List.replicate npages ⟨0, 0⟩ } := by
  have hno : ∀ f : Int, read_at (List.replicate nframes.toNat (0 : Int)) f ≠ .ok 1 := by
    intro f h
    exact absurd (read_at_replicate_ok h) (by decide)
  refine ⟨⟨by show 0 < nframes; omega, ?_, ?_, hpm, ?_, ?_, ?_, ?_, ?_⟩, ?_, ?_⟩
  · show ((List.replicate nframes.toNat (0 : Int)).length : Int) = nframes
    rw [List.length_replicate]; omega
  · show ((List.replicate nframes.toNat (0 : Int)).length : Int) = nframes
    rw [List.length_replicate]; omega
  · show d.length = (List.replicate npages (⟨0, 0⟩ : pt_entry)).length
    rw [List.length_replicate]; exact hd
  · intro f v h
    left
    exact read_at_replicate_ok h
  · intro p e h
    left
    rw [read_at_replicate_ok h]
  · intro p e h hne
    rw [read_at_replicate_ok h] at hne
    exact absurd rfl hne
  · intro f h
    exact absurd h (hno f)
  · intro _
    refine ⟨List.nodup_nil, fun f => ⟨fun h => ?_, fun h => absurd h (hno f)⟩⟩
    simp [ids] at h
  · intro _
    refine ⟨List.nodup_nil, fun f => ⟨fun h => ?_, fun h => absurd h (hno f)⟩⟩
    simp [ids] at h

theorem run_ok (npages : Nat) (evs : List (Int × Int)) :
    ∀ s : State, Inv s → s.pt.length = npages → (∀ ev ∈ evs, valid_fault npages ev) →
      ∃ s2, run s evs = .ok s2 ∧ Inv s2 ∧ s2.pt.length = npages ∧
        s2.nframes = s.nframes ∧ s2.page_algo = s.page_algo := by
  induction evs with
  | nil =>
    intro s hI hl _
    exact ⟨s, rfl, hI, hl, rfl, rfl⟩
  | cons ev rest ih =>
    intro s hI hl hev
    have hv := hev ev (List.mem_cons_self _ _)
    obtain ⟨s1, h1, hI1, hl1, hn1, ha1⟩ :=
      Inv_step s hI ev.1 ev.2 ⟨hv.1, by rw [hl]; exact hv.2.1⟩ hv.2.2.1
    obtain ⟨s2, h2, hI2, hl2, hn2, ha2⟩ :=
      ih s1 hI1 (hl1.trans hl) (fun x hx => hev x (List.mem_cons_of_mem _ hx))
    refine ⟨s2, ?_, hI2, hl2, hn2.trans hn1, ha2.trans ha1⟩
    simp [run, h1, h2]

/-- From the initial state every sequence of faults runs to a consistent state. -/
theorem reach_ok (npages : Nat) (nframes : Int) (a : algo) (pm d : List Block)
    (evs : List (Int × Int)) (hn : 1 ≤ nframes) (hpm : (pm.length : Int) = nframes)
    (hd : d.length = npages) (hev : ∀ ev ∈ evs, valid_fault npages ev) :
    ∃ s, reach npages nframes a pm d evs = .ok s ∧ Inv s ∧ s.pt.length = npages ∧
      s.nframes = nframes ∧ s.page_algo = a := by
  obtain ⟨s, h1, h2, h3, h4, h5⟩ := run_ok npages evs _ (Inv_init npages nframes a pm d hn hpm hd)
    (by simp) hev
  refine ⟨s, ?_, h2, h3, h4, h5⟩
  simp only [reach, init_state_eq npages nframes a pm d hn]
  exact h1

/-- A state reached from the initial state satisfies the invariant. -/
theorem Inv_of_reach (npages : Nat) (nframes : Int) (a : algo) (pm d : List Block)
    (evs : List (Int × Int)) (hn : 1 ≤ nframes) (hpm : (pm.length : Int) = nframes)
    (hd : d.length = npages) (hev : ∀ ev ∈ evs, valid_fault npages ev) (s : State)
    (hs : reach npages nframes a pm d evs = .ok s) :
    Inv s ∧ s.pt.length = npages ∧ s.nframes = nframes ∧ s.page_algo = a := by
  obtain ⟨s1, h1, r⟩ := reach_ok npages nframes a pm d evs hn hpm hd hev
  rw [hs] at h1
  cases h1
  exact r


/-! ## C1, C2: the frame table and the page table agree -/

theorem Inv_frames_injective {s : State} (hI : Inv s) : frames_injective s := by
  intro p1 p2 e1 e2 h1 h2 hb1 hb2 hf
  have r1 := (hI.res_frame p1 e1 h1 hb1).2
  have r2 := (hI.res_frame p2 e2 h2 hb2).2
  rw [hf, r2] at r1
  exact (Except.ok.inj r1).symm

/-- C1: from the initial state (all frames free, every page unmapped) with
`nframes >= 1`, every sequence of faults under any policy runs to a state in which
each resident page `p` mapped to frame `f` has `free_frames[f] = 1` and
`frames_info[f] = p`, and no two resident pages share a frame. -/
theorem c1_frame_page_consistency (npages : Nat) (nframes : Int) (a : algo)
    (pm d : List Block) (evs : List (Int × Int)) (hn : 1 ≤ nframes)
    (hpm : (pm.length : Int) = nframes) (hd : d.length = npages)
    (hev : ∀ ev ∈ evs, valid_fault npages ev) :
    ∃ s, reach npages nframes a pm d evs = .ok s ∧ resident_consistent s ∧
      frames_injective s := by
  obtain ⟨s, h1, hI, -, -, -⟩ := reach_ok npages nframes a pm d evs hn hpm hd hev
  exact ⟨s, h1, hI.res_frame, Inv_frames_injective hI⟩

/-- C1 on two frames under FIFO after faults on pages 0, 1, 2, 0. -/
theorem c1_frame_page_consistency_witness :
    ∃ s, reach 4 2 .FIFO [[], []] [[10], [11], [12], [13]] [(0, 0), (1, 0), (2, 0), (0, 0)]
        = .ok s ∧ resident_consistent s ∧ frames_injective s :=
  c1_frame_page_consistency 4 2 .FIFO [[], []] [[10], [11], [12], [13]]
    [(0, 0), (1, 0), (2, 0), (0, 0)] (by decide) (by decide) (by decide) (by decide)

theorem countP_set_of_read {α : Type} (p : α → Bool) (l : List α) (i : Int) (x a : α)
    (h : read_at l i = .ok x) :
    (l.set i.toNat a).countP p + (if p x then 1 else 0) =
      l.countP p + (if p a then 1 else 0) := by
  rw [read_at_ok_iff] at h
  obtain ⟨hlt, hx⟩ := List.getElem?_eq_some.mp h.2
  rw [List.countP_set p l i.toNat a hlt, hx]
  have hle : (if p x = true then 1 else 0) ≤ l.countP p := by
    by_cases hp : p x = true
    · rw [if_pos hp]
      have : 0 < l.countP p := List.countP_pos_iff.mpr ⟨x, by rw [← hx]; exact List.getElem_mem _, hp⟩
      omega
    · rw [if_neg hp]; omega
  omega

theorem run_induction (npages : Nat) (P : State → Prop)
    (hstep : ∀ s page rnd, Inv s → s.pt.length = npages → P s →
      valid_fault npages (page, rnd) → ∀ s2, page_fault_handler s page rnd = .ok s2 → P s2) :
    ∀ (evs : List (Int × Int)) (s : State), Inv s → s.pt.length = npages → P s →
      (∀ ev ∈ evs, valid_fault npages ev) → ∀ s2, run s evs = .ok s2 → P s2 := by
  intro evs
  induction evs with
  | nil =>
    intro s _ _ hP _ s2 h
    cases h
    exact hP
  | cons ev rest ih =>
    intro s hI hl hP hev s2 h
    have hv := hev ev (List.mem_cons_self _ _)
    obtain ⟨s1, h1, hI1, hl1, -, -⟩ :=
      Inv_step s hI ev.1 ev.2 ⟨hv.1, by rw [hl]; exact hv.2.1⟩ hv.2.2.1
    have hP1 := hstep s ev.1 ev.2 hI hl hP hv s1 h1
    simp only [run, h1] at h
    exact ih s1 hI1 (hl1.trans hl) hP1 (fun x hx => hev x (List.mem_cons_of_mem _ hx)) s2 h

/-- A property of the initial state that every fault preserves holds of every
reachable state. -/
theorem reach_induction (npages : Nat) (nframes : Int) (a : algo) (pm d : List Block)
    (evs : List (Int × Int)) (hn : 1 ≤ nframes) (hpm : (pm.length : Int) = nframes)
    (hd : d.length = npages) (hev : ∀ ev ∈ evs, valid_fault npages ev)
    (P : State → Prop)
    (h0 : P { nframes := nframes, disk_reads := 0, disk_writes := 0, page_faults := 0,
              physmem := pm, disk := d, free_frames := List.replicate nframes.toNat 0,
              frames_info := List.replicate nframes.toNat 0,
              page_algo := a, fifo := [], lru := [], pt := List.replicate npages ⟨0, 0⟩ })
    (hstep : ∀ s page rnd, Inv s → s.pt.length = npages → P s →
      valid_fault npages (page, rnd) → ∀ s2, page_fault_handler s page rnd = .ok s2 → P s2) :
    ∀ s, reach npages nframes a pm d evs = .ok s → P s := by
  intro s h
  simp only [reach, init_state_eq npages nframes a pm d hn] at h
  exact run_induction npages P hstep evs _ (Inv_init npages nframes a pm d hn hpm hd)
    (by simp) h0 hev s h

theorem count_step (s : State) (hI : Inv s) (hc : occupied_count s = resident_count s)
    (page rnd : Int) (hp : 0 ≤ page ∧ page < s.pt.length) (hr : 0 ≤ rnd) (s2 : State)
    (h : page_fault_handler s page rnd = .ok s2) :
    occupied_count s2 = resident_count s2 := by
  obtain ⟨e, he, hcase⟩ := step_cases s hI page rnd hp hr
  simp only [occupied_count, resident_count, ne_eq, decide_not] at hc ⊢
  rcases hcase with ⟨hb, hh⟩ | ⟨hb, f, blk, h0, h1, h2, -, -, hh⟩ |
    ⟨hb, hfull, v, q, eq, buf, blk, hv, hq, heq, hqb, hqf, hbuf, hblk, hpol, hh⟩
  · rw [hh] at h
    cases h
    have h3 := countP_set_of_read (fun e : pt_entry => !decide (e.bits = 0)) s.pt page e
      ⟨e.frame, 3⟩ he
    have hne : e.bits ≠ 0 := by rcases hb with h | h <;> rw [h] <;> decide
    simp [hne] at h3
    show List.countP _ s.free_frames = List.countP _ (s.pt.set page.toNat ⟨e.frame, 3⟩)
    omega
  · rw [hh] at h
    cases h
    have h3 := countP_set_of_read (fun e : pt_entry => !decide (e.bits = 0)) s.pt page e
      ⟨f, 1⟩ he
    have h4 := countP_set_of_read (fun x : Int => !decide (x = 0)) s.free_frames f 0 1 h2
    simp [hb] at h3 h4
    show List.countP _ (s.free_frames.set f.toNat 1) = List.countP _ (s.pt.set page.toNat ⟨f, 1⟩)
    omega
  · rw [hh] at h
    cases h
    have hqb2 := read_at_bounds heq
    have hpq : page ≠ q := by
      intro hx
      subst hx
      rw [he] at heq
      cases heq
      exact hqb hb
    have h3 := countP_set_of_read (fun e : pt_entry => !decide (e.bits = 0)) s.pt q eq
      ⟨0, 0⟩ heq
    have he2 : read_at (s.pt.set q.toNat ⟨0, 0⟩) page = .ok e := by
      rw [read_at_set_ne _ _ _ _ hqb2.1 hpq]; exact he
    have h4 := countP_set_of_read (fun e : pt_entry => !decide (e.bits = 0))
      (s.pt.set q.toNat ⟨0, 0⟩) page e ⟨v, 1⟩ he2
    simp [hb, hqb] at h3 h4
    show List.countP _ s.free_frames =
      List.countP _ ((s.pt.set q.toNat ⟨0, 0⟩).set page.toNat ⟨v, 1⟩)
    omega

/-- C2: in every state reachable from the initial state (any policy,
`nframes >= 1`) the number of frames marked occupied equals the number of pages
with a non-zero permission, and that number is at most `nframes`. -/
theorem c2_occupied_equals_resident (npages : Nat) (nframes : Int) (a : algo)
    (pm d : List Block) (evs : List (Int × Int)) (hn : 1 ≤ nframes)
    (hpm : (pm.length : Int) = nframes) (hd : d.length = npages)
    (hev : ∀ ev ∈ evs, valid_fault npages ev) :
    ∃ s, reach npages nframes a pm d evs = .ok s ∧
      occupied_count s = resident_count s ∧ (occupied_count s : Int) ≤ nframes := by
  obtain ⟨s, h1, hI, -, hnf, -⟩ := reach_ok npages nframes a pm d evs hn hpm hd hev
  refine ⟨s, h1, ?_, ?_⟩
  · refine reach_induction npages nframes a pm d evs hn hpm hd hev
      (fun s => occupied_count s = resident_count s) ?_ ?_ s h1
    · simp [occupied_count, resident_count, List.countP_replicate]
    · intro s1 page rnd hI1 hl hP hv s2 h
      exact count_step s1 hI1 hP page rnd ⟨hv.1, by rw [hl]; exact hv.2.1⟩ hv.2.2.1 s2 h
  · have h2 : occupied_count s ≤ s.free_frames.length := List.countP_le_length _
    have h3 := hI.len_ff
    rw [hnf] at h3
    omega

/-- C2 on two frames under the CUSTOM policy after faults on pages 0, 1, 2, 0. -/
theorem c2_occupied_equals_resident_witness :
    ∃ s, reach 4 2 .CUSTOM [[], []] [[10], [11], [12], [13]]
        [(0, 0), (1, 0), (2, 0), (0, 0)] = .ok s ∧
      occupied_count s = resident_count s ∧ (occupied_count s : Int) ≤ 2 :=
  c2_occupied_equals_resident 4 2 .CUSTOM [[], []] [[10], [11], [12], [13]]
    [(0, 0), (1, 0), (2, 0), (0, 0)] (by decide) (by decide) (by decide) (by decide)

/-! ## C3: permission monotonicity -/

theorem perm_monotone_step (s : State) (hI : Inv s) (page rnd : Int)
    (hp : 0 ≤ page ∧ page < s.pt.length) (hr : 0 ≤ rnd) (s2 : State)
    (h : page_fault_handler s page rnd = .ok s2) : perm_monotone s s2 page := by
  obtain ⟨e, he, hcase⟩ := step_cases s hI page rnd hp hr
  rcases hcase with ⟨hb, hh⟩ | ⟨hb, f, blk, h0, h1, h2, -, -, hh⟩ |
    ⟨hb, hfull, v, q, eq, buf, blk, hv, hq, heq, hqb, hqf, hbuf, hblk, hpol, hh⟩
  · rw [hh] at h
    cases h
    intro q e1 e2 h1 h2
    rcases read_at_set _ _ _ _ _ h2 hp.1 with ⟨h3, h4⟩ | ⟨-, h4⟩
    · subst h3
      rw [he] at h1
      cases h1
      subst h4
      rcases hb with hb | hb
      · right; left
        exact ⟨rfl, Or.inr ⟨hb, rfl⟩⟩
      · left; exact hb.symm
    · rw [h1] at h4
      cases h4
      left; rfl
  · rw [hh] at h
    cases h
    intro q e1 e2 h3 h4
    rcases read_at_set _ _ _ _ _ h4 hp.1 with ⟨h5, h6⟩ | ⟨-, h6⟩
    · subst h5
      rw [he] at h3
      cases h3
      subst h6
      right; left
      exact ⟨rfl, Or.inl ⟨hb, rfl⟩⟩
    · rw [h3] at h6
      cases h6
      left; rfl
  · rw [hh] at h
    cases h
    have hqb2 := read_at_bounds heq
    have hvb := read_at_bounds hq
    have hpl : page < ((s.pt.set q.toNat ⟨0, 0⟩).length : Int) := by
      rw [List.length_set]; exact hp.2
    intro q1 e1 e2 h3 h4
    rcases read_at_set _ _ _ _ _ h4 hp.1 with ⟨h5, h6⟩ | ⟨h5, h6⟩
    · subst h5
      rw [he] at h3
      cases h3
      subst h6
      right; left
      exact ⟨rfl, Or.inl ⟨hb, rfl⟩⟩
    · rcases read_at_set _ _ _ _ _ h6 hqb2.1 with ⟨h7, h8⟩ | ⟨-, h8⟩
      · subst h7
        rw [heq] at h3
        cases h3
        subst h8
        right; right
        refine ⟨h5, rfl, hqb, by rw [hqf]; exact hq, ?_, e, ⟨v, 1⟩, he, hb, ?_, hqf.symm⟩
        · rw [hqf]; exact read_at_set_self _ _ _ hvb.1 hvb.2
        · exact read_at_set_self _ _ _ hp.1 hpl
      · rw [h3] at h8
        cases h8
        left; rfl

theorem perm_monotone_no_revoke {s s2 : State} {page : Int} (h : perm_monotone s s2 page) :
    no_write_revoked s s2 := by
  intro q e e2 h1 h2 hc
  rcases h q e e2 h1 h2 with h3 | ⟨-, ⟨h3, -⟩ | ⟨h3, -⟩⟩ | ⟨-, h3, -⟩
  · rw [hc.1, hc.2] at h3; exact absurd h3 (by decide)
  · rw [hc.1] at h3; exact absurd h3 (by decide)
  · rw [hc.1] at h3; exact absurd h3 (by decide)
  · rw [hc.2] at h3; exact absurd h3 (by decide)

theorem perm_monotone_one_other {s s2 : State} {page : Int} (h : perm_monotone s s2 page) :
    one_other_change s s2 page := by
  intro q1 q2 e1 e2 f1 f2 hq1 hq2 a1 b1 c1 a2 b2 c2
  rcases h q1 e1 f1 a1 b1 with h3 | ⟨h3, -⟩ | ⟨-, -, -, r1, -, ep, ep2, -, -, t1, u1⟩
  · exact absurd h3 c1
  · exact absurd h3 hq1
  · rcases h q2 e2 f2 a2 b2 with h4 | ⟨h4, -⟩ | ⟨-, -, -, r2, -, eq, eq2, -, -, t2, u2⟩
    · exact absurd h4 c2
    · exact absurd h4 hq2
    · rw [t1] at t2
      cases t2
      rw [← u1, u2, r2] at r1
      exact (Except.ok.inj r1).symm

/-- C3: for every state reachable from the initial state and every fault, the call
returns and each page's permission is unchanged, or (faulting page) moved one step
along `0 -> PROT_READ -> PROT_READ|PROT_WRITE`, or (evicted page) reset to `0`; no
page goes from `PROT_READ|PROT_WRITE` to `PROT_READ`, and at most one page other
than the faulting page changes permission. -/
theorem c3_permission_monotone (npages : Nat) (nframes : Int) (a : algo)
    (pm d : List Block) (evs : List (Int × Int)) (page rnd : Int) (hn : 1 ≤ nframes)
    (hpm : (pm.length : Int) = nframes) (hd : d.length = npages)
    (hev : ∀ ev ∈ evs, valid_fault npages ev) (hf : valid_fault npages (page, rnd)) :
    ∃ s s2, reach npages nframes a pm d evs = .ok s ∧
      page_fault_handler s page rnd = .ok s2 ∧ s2.pt.length = s.pt.length ∧
      perm_monotone s s2 page ∧ no_write_revoked s s2 ∧ one_other_change s s2 page := by
  obtain ⟨s, h1, hI, hl, -, -⟩ := reach_ok npages nframes a pm d evs hn hpm hd hev
  have hp : 0 ≤ page ∧ page < s.pt.length := ⟨hf.1, by rw [hl]; exact hf.2.1⟩
  obtain ⟨s2, h2, -, hl2, -, -⟩ := Inv_step s hI page rnd hp hf.2.2.1
  have hm := perm_monotone_step s hI page rnd hp hf.2.2.1 s2 h2
  exact ⟨s, s2, h1, h2, hl2, hm, perm_monotone_no_revoke hm, perm_monotone_one_other hm⟩

/-- C3 on two frames under FIFO: after faults on pages 0, 0, 1, a fault on page 2
evicts page 0, which had permission `PROT_READ|PROT_WRITE`. -/
theorem c3_permission_monotone_witness :
    ∃ s s2, reach 4 2 .FIFO [[], []] [[10], [11], [12], [13]] [(0, 0), (0, 0), (1, 0)]
        = .ok s ∧
      page_fault_handler s 2 0 = .ok s2 ∧ s2.pt.length = s.pt.length ∧
      perm_monotone s s2 2 ∧ no_write_revoked s s2 ∧ one_other_change s s2 2 :=
  c3_permission_monotone 4 2 .FIFO [[], []] [[10], [11], [12], [13]]
    [(0, 0), (0, 0), (1, 0)] 2 0 (by decide) (by decide) (by decide) (by decide) (by decide)

/-! ## C10: a missing-page fault served from a free frame -/

/-- A fault on another page leaves an unmapped page's entry and disk block alone. -/
theorem unmapped_untouched (s : State) (hI : Inv s) (page rnd q : Int) (e : pt_entry)
    (hp : 0 ≤ page ∧ page < s.pt.length) (hr : 0 ≤ rnd) (hne : page ≠ q)
    (he : read_at s.pt q = .ok e) (hb : e.bits = 0) (s2 : State)
    (h : page_fault_handler s page rnd = .ok s2) :
    read_at s2.pt q = .ok e ∧ read_at s2.disk q = read_at s.disk q := by
  obtain ⟨ep, hep, hcase⟩ := step_cases s hI page rnd hp hr
  rcases hcase with ⟨-, hh⟩ | ⟨-, f, blk, -, -, -, -, -, hh⟩ |
    ⟨-, -, v, q0, eq, buf, blk, hv, hq, heq, hqb, hqf, hbuf, hblk, hpol, hh⟩
  · rw [hh] at h
    cases h
    exact ⟨by
      show read_at (s.pt.set page.toNat _) q = _
      rw [read_at_set_ne _ _ _ _ hp.1 hne.symm]; exact he, rfl⟩
  · rw [hh] at h
    cases h
    exact ⟨by
      show read_at (s.pt.set page.toNat _) q = _
      rw [read_at_set_ne _ _ _ _ hp.1 hne.symm]; exact he, rfl⟩
  · rw [hh] at h
    cases h
    have hqb2 := read_at_bounds heq
    have hq0 : q ≠ q0 := by
      intro hx
      subst hx
      rw [he] at heq
      cases heq
      exact hqb hb
    constructor
    · show read_at ((s.pt.set q0.toNat _).set page.toNat _) q = _
      rw [read_at_set_ne _ _ _ _ hp.1 hne.symm, read_at_set_ne _ _ _ _ hqb2.1 hq0]
      exact he
    · show read_at (if Int.land eq.bits PROT_WRITE ≠ 0 then s.disk.set q0.toNat buf
        else s.disk) q = _
      split_ifs
      · exact read_at_set_ne _ _ _ _ hqb2.1 hq0
      · rfl

/-- A missing-page fault loads the page's disk block into the frame it is mapped to. -/
theorem missing_fault_loads (s : State) (hI : Inv s) (q rnd : Int) (e : pt_entry)
    (hq : read_at s.pt q = .ok e) (hb : e.bits = 0) (hr : 0 ≤ rnd) :
    ∃ s2 e2, page_fault_handler s q rnd = .ok s2 ∧ read_at s2.pt q = .ok e2 ∧
      e2.bits = PROT_READ ∧ read_at s2.physmem e2.frame = read_at s.disk q := by
  have hp := read_at_bounds hq
  obtain ⟨ep, hep, hcase⟩ := step_cases s hI q rnd hp hr
  rw [hq] at hep
  cases hep
  rcases hcase with ⟨hb2, -⟩ | ⟨-, f, blk, h0, h1, -, -, hblk, hh⟩ |
    ⟨-, -, v, q0, eq, buf, blk, hv, hq0, heq, hqb, hqf, hbuf, hblk, hpol, hh⟩
  · rw [hb] at hb2
    rcases hb2 with h | h <;> exact absurd h (by decide)
  · refine ⟨_, ⟨f, 1⟩, hh, read_at_set_self _ _ _ hp.1 hp.2, rfl, ?_⟩
    rw [hblk]
    exact read_at_set_self _ _ _ h0 (by rw [hI.len_pm]; exact h1)
  · have hqb2 := read_at_bounds heq
    have hvb := read_at_bounds hbuf
    have hne : q ≠ q0 := by
      intro hx
      subst hx
      rw [hq] at heq
      cases heq
      exact hqb hb
    have hpl : q < ((s.pt.set q0.toNat ⟨0, 0⟩).length : Int) := by
      rw [List.length_set]; exact hp.2
    refine ⟨_, ⟨v, 1⟩, hh, read_at_set_self _ _ _ hp.1 hpl, rfl, ?_⟩
    have hd : read_at s.disk q = .ok blk := by
      rw [← hblk]
      split_ifs
      · exact (read_at_set_ne _ _ _ _ hqb2.1 hne).symm
      · rfl
    rw [hd]
    exact read_at_set_self _ _ _ hvb.1 hvb.2

theorem reloads_of_unmapped (evs : List (Int × Int)) :
    ∀ (s : State), Inv s → ∀ (q rnd : Int) (e : pt_entry) (buf : Block),
      read_at s.pt q = .ok e → e.bits = 0 → read_at s.disk q = .ok buf →
      (∀ ev ∈ evs, valid_fault s.pt.length ev ∧ ev.1 ≠ q) → 0 ≤ rnd →
      ∃ s4 s5 e4 e5, run s evs = .ok s4 ∧ read_at s4.pt q = .ok e4 ∧ e4.bits = 0 ∧
        page_fault_handler s4 q rnd = .ok s5 ∧
        read_at s5.pt q = .ok e5 ∧ e5.bits = PROT_READ ∧
        read_at s5.physmem e5.frame = .ok buf := by
  induction evs with
  | nil =>
    intro s hI q rnd e buf hq hb hd _ hr
    obtain ⟨s2, e2, h1, h2, h3, h4⟩ := missing_fault_loads s hI q rnd e hq hb hr
    exact ⟨s, s2, e, e2, rfl, hq, hb, h1, h2, h3, by rw [h4]; exact hd⟩
  | cons ev rest ih =>
    intro s hI q rnd e buf hq hb hd hev hr
    obtain ⟨hv, hne⟩ := hev ev (List.mem_cons_self _ _)
    have hp : 0 ≤ ev.1 ∧ ev.1 < s.pt.length := ⟨hv.1, hv.2.1⟩
    obtain ⟨s1, h1, hI1, hl1, -, -⟩ := Inv_step s hI ev.1 ev.2 hp hv.2.2.1
    obtain ⟨u1, u2⟩ := unmapped_untouched s hI ev.1 ev.2 q e hp hv.2.2.1 hne hq hb s1 h1
    obtain ⟨s4, s5, e4, e5, r1, r2, r3, r4, r5, r6, r7⟩ :=
      ih s1 hI1 q rnd e buf u1 hb (by rw [u2]; exact hd)
        (fun x hx => by rw [hl1]; exact hev x (List.mem_cons_of_mem _ hx)) hr
    refine ⟨s4, s5, e4, e5, ?_, r2, r3, r4, r5, r6, r7⟩
    simp only [run, h1]
    exact r1

/-- C4: in a state whose frame table and page table are consistent, `replace_page`
called for an unmapped page `page` and an occupied victim frame `v` returns and
keeps them consistent; if the occupant `q` of `v` has `PROT_WRITE` set, the disk
block of `q` afterwards equals the content frame `v` held before the call, and from
every state satisfying the invariant with that page table and disk (the one in
which the handler returns), after faults on other pages, the next fault on `q`
loads exactly that content; if `PROT_WRITE` is not set the disk is unchanged. -/
theorem c4_write_back (s : State) (hC : Core s) (page v : Int) (ep : pt_entry)
    (hp : read_at s.pt page = .ok ep) (hpb : ep.bits = 0)
    (hv : read_at s.free_frames v = .ok 1) :
    ∃ q e buf s2, read_at s.frames_info v = .ok q ∧ read_at s.pt q = .ok e ∧
      read_at s.physmem v = .ok buf ∧ replace_page s page v = .ok s2 ∧ Core s2 ∧
      written_back s s2 q e buf ∧
      (Int.land e.bits PROT_WRITE ≠ 0 →
        ∀ s3, Inv s3 → s3.pt = s2.pt → s3.disk = s2.disk → reloads s3 q buf) := by
  have hpb2 := read_at_bounds hp
  have hvb := read_at_bounds hv
  obtain ⟨q, e, hq, he, hqb, hqf⟩ := hC.occ_page v hv
  have hqb2 := read_at_bounds he
  have hvn : v < s.nframes := by rw [← hC.len_ff]; exact hvb.2
  obtain ⟨buf, hbuf⟩ := read_at_exists s.physmem v hvb.1 (by rw [hC.len_pm]; exact hvn)
  have hne : page ≠ q := by
    intro hx
    subst hx
    rw [hp] at he
    cases he
    exact hqb hpb
  have hdl : ((if Int.land e.bits PROT_WRITE ≠ 0 then s.disk.set q.toNat buf
      else s.disk).length : Int) = s.pt.length := by
    split_ifs
    · rw [List.length_set, hC.len_disk]
    · rw [hC.len_disk]
  obtain ⟨blk, hblk⟩ := read_at_exists _ page hpb2.1 (by rw [hdl]; exact hpb2.2)
  have hrp := replace_page_eq s page v q e buf blk hq he (by rw [hqf]; exact hbuf)
    (by rw [hC.len_disk]; exact hqb2.2) hpb2 hblk (by rw [hqf, hC.len_fi]; exact hvn)
  have hqd : q < (s.disk.length : Int) := by rw [hC.len_disk]; exact hqb2.2
  have hI2 := Core_evict s hC page v q ep e
    (if Int.land e.bits PROT_WRITE ≠ 0 then s.disk.set q.toNat buf else s.disk)
    (s.physmem.set v.toNat blk)
    (if Int.land e.bits PROT_WRITE ≠ 0 then int_incr s.disk_writes else s.disk_writes)
    s.page_faults (int_incr s.disk_reads) s.fifo s.lru hp hpb hv hq he hqb hqf
    (by split_ifs <;> simp) (by simp)
  rw [← hqf] at hI2
  refine ⟨q, e, buf, _, hq, he, hbuf, hrp, hI2, ⟨?_, ?_⟩, ?_⟩
  · intro hd
    refine ⟨?_, ?_, ?_⟩
    · show read_at (if Int.land e.bits PROT_WRITE ≠ 0 then s.disk.set q.toNat buf
        else s.disk) q = _
      rw [if_pos hd]
      exact read_at_set_self _ _ _ hqb2.1 hqd
    · show (if Int.land e.bits PROT_WRITE ≠ 0 then int_incr s.disk_writes else s.disk_writes) = _
      rw [if_pos hd]
    · intro q2 hq2
      show read_at (if Int.land e.bits PROT_WRITE ≠ 0 then s.disk.set q.toNat buf
        else s.disk) q2 = _
      rw [if_pos hd]
      exact read_at_set_ne _ _ _ _ hqb2.1 hq2
  · intro hd
    constructor
    · show (if Int.land e.bits PROT_WRITE ≠ 0 then s.disk.set q.toNat buf else s.disk) = _
      rw [if_neg (not_not.mpr hd)]
    · show (if Int.land e.bits PROT_WRITE ≠ 0 then int_incr s.disk_writes else s.disk_writes) = _
      rw [if_neg (not_not.mpr hd)]
  · intro hd s3 hI3 hpt hdisk evs rnd hev hr
    have h1 : read_at s3.pt q = .ok ⟨0, 0⟩ := by
      rw [hpt]
      show read_at ((s.pt.set q.toNat ⟨0, 0⟩).set page.toNat _) q = _
      rw [read_at_set_ne _ _ _ _ hpb2.1 hne.symm]
      exact read_at_set_self _ _ _ hqb2.1 hqb2.2
    have h2 : read_at s3.disk q = .ok buf := by
      rw [hdisk]
      show read_at (if Int.land e.bits PROT_WRITE ≠ 0 then s.disk.set q.toNat buf
        else s.disk) q = _
      rw [if_pos hd]
      exact read_at_set_self _ _ _ hqb2.1 hqd
    exact reloads_of_unmapped evs s3 hI3 q rnd ⟨0, 0⟩ buf h1 rfl h2 hev hr

/-- The call of `replace_page` made by an evicting fault: the state it is called on
(the fault counted, the head of the FIFO queue removed) has a consistent frame table
and page table, the victim is an occupied frame, and the handler returns with the
page table, disk, physical memory and disk counters that `replace_page` left. -/
theorem handler_calls_replace_page (s : State) (hI : Inv s) (page rnd : Int) (e : pt_entry)
    (he : read_at s.pt page = .ok e) (hb : e.bits = 0) (hr : 0 ≤ rnd)
    (hfull : ∀ j, 0 ≤ j → j < s.nframes → read_at s.free_frames j ≠ .ok 0) :
    ∃ v s2 s3,
      Core { s with
        page_faults := int_incr s.page_faults,
        fifo := if s.page_algo = .FIFO then s.fifo.tail else s.fifo } ∧
      read_at s.free_frames v = .ok 1 ∧
      replace_page { s with
        page_faults := int_incr s.page_faults,
        fifo := if s.page_algo = .FIFO then s.fifo.tail else s.fifo } page v = .ok s2 ∧
      page_fault_handler s page rnd = .ok s3 ∧ Inv s3 ∧
      s3.pt = s2.pt ∧ s3.disk = s2.disk ∧ s3.physmem = s2.physmem ∧
      s3.disk_writes = s2.disk_writes ∧ s3.disk_reads = s2.disk_reads := by
  have hpb := read_at_bounds he
  obtain ⟨v, q, eq, buf, blk, hv, hq, heq, hqb, hqf, hbuf, hblk, hpol, hh⟩ :=
    handler_evict_ok s hI page rnd e he hb hr hfull
  obtain ⟨s3, h3, hI3, -, -, -⟩ := Inv_step s hI page rnd hpb hr
  have hs3 := Except.ok.inj (hh.symm.trans h3)
  have hqb2 := read_at_bounds heq
  have hvb := read_at_bounds hv
  have hvn : v < s.nframes := by rw [← hI.len_ff]; exact hvb.2
  have hC1 : Core { s with
      page_faults := int_incr s.page_faults,
      fifo := if s.page_algo = .FIFO then s.fifo.tail else s.fifo } :=
    ⟨hI.nframes_pos, hI.len_ff, hI.len_fi, hI.len_pm, hI.len_disk, hI.ff01, hI.bits,
      hI.res_frame, hI.occ_page⟩
  have hrp := replace_page_eq { s with
      page_faults := int_incr s.page_faults,
      fifo := if s.page_algo = .FIFO then s.fifo.tail else s.fifo }
    page v q eq buf blk hq heq (by rw [hqf]; exact hbuf)
    (by show q < (s.disk.length : Int); rw [hI.len_disk]; exact hqb2.2) hpb hblk
    (by show eq.frame < (s.frames_info.length : Int); rw [hqf, hI.len_fi]; exact hvn)
  refine ⟨v, _, s3, hC1, hv, hrp, h3, hI3, ?_, ?_, ?_, ?_, ?_⟩
  · rw [← hs3, hqf]
  · rw [← hs3]
  · rw [← hs3, hqf]
  · rw [← hs3]
  · rw [← hs3]

theorem reach_two_resident_state :
    reach 3 2 .FIFO [[], []] [[10], [11], [12]] [(0, 0), (0, 0), (1, 0)]
      = .ok two_resident_state := by
  rfl

theorem Inv_two_resident_state : Inv two_resident_state := by
  obtain ⟨s, h1, hI, -⟩ := reach_ok 3 2 .FIFO [[], []] [[10], [11], [12]]
    [(0, 0), (0, 0), (1, 0)] (by decide) (by decide) (by decide) (by decide)
  rw [reach_two_resident_state] at h1
  cases h1
  exact hI

/-- C4 at a full state: frame 0 holds page 0, which is dirty. -/
theorem c4_write_back_witness :
    ∃ q e buf s2, read_at two_resident_state.frames_info 0 = .ok q ∧
      read_at two_resident_state.pt q = .ok e ∧
      read_at two_resident_state.physmem 0 = .ok buf ∧
      replace_page two_resident_state 2 0 = .ok s2 ∧ Core s2 ∧
      written_back two_resident_state s2 q e buf ∧
      (Int.land e.bits PROT_WRITE ≠ 0 →
        ∀ s3, Inv s3 → s3.pt = s2.pt → s3.disk = s2.disk → reloads s3 q buf) :=
  c4_write_back two_resident_state Inv_two_resident_state.core 2 0 ⟨0, 0⟩ rfl rfl rfl

/-! ## C5: counter accounting -/

theorem is_missing_of_bits_zero (s : State) (page : Int) (e : pt_entry)
    (he : read_at s.pt page = .ok e) (hb : e.bits = 0) : is_missing s page = true := by
  simp only [is_missing, he, hb, decide_eq_true_eq]
  decide

theorem is_missing_of_resident (s : State) (page : Int) (e : pt_entry)
    (he : read_at s.pt page = .ok e) (hb : e.bits = 1 ∨ e.bits = 3) :
    is_missing s page = false := by
  simp only [is_missing, he, decide_eq_false_iff_not]
  rcases hb with h | h <;> rw [h] <;> decide

/-- Below `INT_MAX` the increment of a C `int` adds one. -/
theorem int_incr_eq (x : Int) (h1 : -2147483648 ≤ x) (h2 : x < 2147483647) :
    int_incr x = x + 1 := by
  unfold int_incr
  omega

/-- At `INT_MAX` the increment of a C `int` wraps to `INT_MIN`. -/
theorem int_incr_max : int_incr 2147483647 = -2147483648 := by
  decide

theorem single_frame_step (s : State) (hI : Inv s) (hn : s.nframes = 1) (p p2 rnd : Int)
    (e : pt_entry) (he : read_at s.pt p = .ok e) (hb : e.bits ≠ 0)
    (hp2 : 0 ≤ p2 ∧ p2 < s.pt.length) (hne : p2 ≠ p) (hr : 0 ≤ rnd) :
    ∃ s2 e2, page_fault_handler s p2 rnd = .ok s2 ∧ read_at s2.pt p = .ok e2 ∧
      e2.bits = 0 ∧ sole_resident s2 p2 := by
  have hpb := read_at_bounds he
  obtain ⟨r1, r2⟩ := hI.res_frame p e he hb
  have hfb := read_at_bounds r1
  have hf0 : e.frame = 0 := by
    have := hI.len_ff
    omega
  obtain ⟨s2, h2, hI2, -, hn2, -⟩ := Inv_step s hI p2 rnd hp2 hr
  obtain ⟨e1, he1, hcase⟩ := step_cases s hI p2 rnd hp2 hr
  have hb1 : e1.bits = 0 := by
    by_contra hx
    obtain ⟨t1, t2⟩ := hI.res_frame p2 e1 he1 hx
    have hfb1 := read_at_bounds t1
    have hf1 : e1.frame = 0 := by
      have := hI.len_ff
      omega
    rw [hf1] at t2
    rw [hf0, t2] at r2
    exact hne (Except.ok.inj r2)
  have hsole : ∀ f : Int, read_at s2.pt p2 = .ok ⟨f, 1⟩ → sole_resident s2 p2 := by
    intro f hf
    have hx := hI2.res_frame p2 ⟨f, 1⟩ hf (by simp)
    have hfb2 := read_at_bounds hx.1
    have hf2 : f = 0 := by
      have := hI2.len_ff
      simp only at hfb2
      omega
    subst hf2
    refine ⟨hf, ?_⟩
    intro q eq hq hqb
    have hy := hI2.res_frame q eq hq hqb
    have hfb3 := read_at_bounds hy.1
    have hf3 : eq.frame = 0 := by
      have := hI2.len_ff
      omega
    exact Inv_frames_injective hI2 q p2 eq ⟨0, 1⟩ hq hf hqb (by simp) hf3
  rcases hcase with ⟨hb2, -⟩ | ⟨-, f, blk, h0, h1, hfree, -, -, -⟩ |
    ⟨-, -, v, q, eq, buf, blk, hv, hq, heq, hqb, hqf, hbuf, hblk, hpol, hh⟩
  · rw [hb1] at hb2
    rcases hb2 with h | h <;> exact absurd h (by decide)
  · exfalso
    have : f = 0 := by omega
    subst this
    rw [hf0, hfree] at r1
    exact absurd (Except.ok.inj r1) (by decide)
  · have hvb := read_at_bounds hv
    have hv0 : v = 0 := by
      have := hI.len_ff
      omega
    have hqp : q = p := by
      rw [hv0] at hq
      rw [hf0, hq] at r2
      exact Except.ok.inj r2
    subst hqp
    have hs2 := Except.ok.inj (hh.symm.trans h2)
    have hpt : s2.pt = (s.pt.set q.toNat ⟨0, 0⟩).set p2.toNat ⟨v, 1⟩ := by rw [← hs2]
    have hpl : p2 < ((s.pt.set q.toNat ⟨0, 0⟩).length : Int) := by
      rw [List.length_set]; exact hp2.2
    refine ⟨s2, ⟨0, 0⟩, h2, ?_, rfl, hsole v ?_⟩
    · rw [hpt, read_at_set_ne _ _ _ _ hp2.1 hne.symm]
      exact read_at_set_self _ _ _ hpb.1 hpb.2
    · rw [hpt]
      exact read_at_set_self _ _ _ hp2.1 hpl

/-- C8: with `nframes = 1`, under each of the three policies and for every
`lrand48` value: in every state reached from the initial state in which a page `p`
is resident, a fault on any other page `p2` returns, evicts `p` (its permission
becomes `0`) and leaves `p2` as the only resident page, mapped to frame 0 with
permission `PROT_READ`. -/
theorem c8_single_frame (npages : Nat) (a : algo) (pm d : List Block)
    (evs : List (Int × Int)) (p p2 rnd : Int)
    (hpm : (pm.length : Int) = 1) (hd : d.length = npages)
    (hev : ∀ ev ∈ evs, valid_fault npages ev) (hf : valid_fault npages (p2, rnd))
    (hne : p2 ≠ p) (s : State) (hs : reach npages 1 a pm d evs = .ok s)
    (e : pt_entry) (he : read_at s.pt p = .ok e) (hb : e.bits ≠ 0) :
    ∃ s2 e2, page_fault_handler s p2 rnd = .ok s2 ∧ read_at s2.pt p = .ok e2 ∧
      e2.bits = 0 ∧ sole_resident s2 p2 := by
  obtain ⟨hI, hl, hn, -⟩ := Inv_of_reach npages 1 a pm d evs (le_refl _) hpm hd hev s hs
  exact single_frame_step s hI hn p p2 rnd e he hb ⟨hf.1, by rw [hl]; exact hf.2.1⟩ hne
    hf.2.2.1

/-- C8 under the random policy: two faults on page 0 reach `one_frame_state`, in
which page 0 is resident with permission `3`; the fault on page 2 evicts it. -/
theorem c8_single_frame_witness :
    reach 3 1 .RAND [[]] [[10], [11], [12]] [(0, 5), (0, 7)] = .ok one_frame_state ∧
    read_at one_frame_state.pt 0 = .ok ⟨0, 3⟩ ∧
    ∃ s2 e2, page_fault_handler one_frame_state 2 12345 = .ok s2 ∧
      read_at s2.pt 0 = .ok e2 ∧ e2.bits = 0 ∧ sole_resident s2 2 :=
  ⟨rfl, rfl, c8_single_frame 3 .RAND [[]] [[10], [11], [12]] [(0, 5), (0, 7)] 0 2 12345
    (by decide) (by decide) (by decide) (by decide) (by decide) one_frame_state rfl
    ⟨0, 3⟩ rfl (by decide)⟩

/-! ## C6: FIFO evicts in load order -/

theorem is_resident_iff (s : State) (p : Int) :
    is_resident s p = true ↔ ∃ e, read_at s.pt p = .ok e ∧ e.bits ≠ 0 := by
  unfold is_resident
  cases h : read_at s.pt p with
  | error x => simp
  | ok e => simp

/-- One FIFO fault keeps the queue in step with the load order. -/
theorem fifo_order_step (s : State) (hI : Inv s) (ha : s.page_algo = .FIFO) (page rnd : Int)
    (hp : 0 ≤ page ∧ page < s.pt.length) (hr : 0 ≤ rnd) (log : List Int)
    (hJ : log = (ids s.fifo).map (occupant s)) (s2 : State)
    (h : page_fault_handler s page rnd = .ok s2) :
    (if is_missing s page then log.filter (is_resident s2) ++ [page] else log)
        = (ids s2.fifo).map (occupant s2) ∧
      (∀ q, is_resident s q = true → is_resident s2 q = false → log.head? = some q) := by
  obtain ⟨e, he, hcase⟩ := step_cases s hI page rnd hp hr
  have hres : ∀ g, g ∈ ids s.fifo → ∃ p ep, read_at s.frames_info g = .ok p ∧
      read_at s.pt p = .ok ep ∧ ep.bits ≠ 0 ∧ ep.frame = g := by
    intro g hg
    exact hI.occ_page g (((hI.fifo_inv ha).2 g).mp hg)
  rcases hcase with ⟨hb, hh⟩ | ⟨hb, f, blk, h0, h1, h2, -, -, hh⟩ |
    ⟨hb, hfull, v, q, eq, buf, blk, hv, hq, heq, hqb, hqf, hbuf, hblk, hpol, hh⟩
  · have hs2 := Except.ok.inj (hh.symm.trans h)
    have hpt : s2.pt = s.pt.set page.toNat ⟨e.frame, 3⟩ := by rw [← hs2]
    have hfifo : s2.fifo = s.fifo := by rw [← hs2]
    have hfi : s2.frames_info = s.frames_info := by rw [← hs2]
    have hm := is_missing_of_resident s page e he hb
    constructor
    · rw [hm, hfifo, hJ]
      simp only [Bool.false_eq_true, if_false]
      apply List.map_congr_left
      intro g _
      simp only [occupant, hfi]
    · intro q h1 h2
      exfalso
      obtain ⟨e1, a1, a2⟩ := (is_resident_iff s q).mp h1
      have hq2 : is_resident s2 q = true := by
        rw [is_resident_iff, hpt]
        by_cases hqp : q = page
        · subst hqp
          exact ⟨_, read_at_set_self _ _ _ hp.1 hp.2, by simp⟩
        · exact ⟨e1, by rw [read_at_set_ne _ _ _ _ hp.1 hqp]; exact a1, a2⟩
      rw [hq2] at h2
      cases h2
  · have hs2 := Except.ok.inj (hh.symm.trans h)
    have hpt : s2.pt = s.pt.set page.toNat ⟨f, 1⟩ := by rw [← hs2]
    have hfifo : s2.fifo = add_node s.fifo f := by rw [← hs2]; simp [ha]
    have hfi : s2.frames_info = s.frames_info.set f.toNat page := by rw [← hs2]
    have hm := is_missing_of_bits_zero s page e he hb
    have hlfi : f < s.frames_info.length := by rw [hI.len_fi]; exact h1
    have hkeep : ∀ q, is_resident s q = true → is_resident s2 q = true := by
      intro q hq1
      obtain ⟨e1, a1, a2⟩ := (is_resident_iff s q).mp hq1
      rw [is_resident_iff, hpt]
      by_cases hqp : q = page
      · subst hqp
        exact ⟨_, read_at_set_self _ _ _ hp.1 hp.2, by simp⟩
      · exact ⟨e1, by rw [read_at_set_ne _ _ _ _ hp.1 hqp]; exact a1, a2⟩
    have hnotin : f ∉ ids s.fifo := by
      intro hx
      have := ((hI.fifo_inv ha).2 f).mp hx
      rw [h2] at this
      exact absurd (Except.ok.inj this) (by decide)
    constructor
    · rw [hm, hfifo, ids_add_node, List.map_append, hJ]
      simp only [if_true, List.map_cons, List.map_nil]
      congr 1
      · rw [List.filter_eq_self.mpr]
        · apply List.map_congr_left
          intro g hg
          have hgf : g ≠ f := fun hx => hnotin (hx ▸ hg)
          simp only [occupant, hfi, read_at_set_ne _ _ _ _ h0 hgf]
        · intro p hp1
          obtain ⟨g, hg, hgp⟩ := List.mem_map.mp hp1
          obtain ⟨p1, ep, b1, b2, b3, -⟩ := hres g hg
          simp only [occupant, b1] at hgp
          subst hgp
          exact hkeep p1 ((is_resident_iff s p1).mpr ⟨ep, b2, b3⟩)
      · simp only [occupant, hfi, read_at_set_self _ _ _ h0 hlfi]
    · intro q h3 h4
      rw [hkeep q h3] at h4
      cases h4
  · have hs2 := Except.ok.inj (hh.symm.trans h)
    have hpt : s2.pt = (s.pt.set q.toNat ⟨0, 0⟩).set page.toNat ⟨v, 1⟩ := by rw [← hs2]
    have hfifo : s2.fifo = add_node s.fifo.tail v := by rw [← hs2]; simp [ha]
    have hfi : s2.frames_info = s.frames_info.set v.toNat page := by rw [← hs2]
    have hm := is_missing_of_bits_zero s page e he hb
    have hqb2 := read_at_bounds heq
    have hvb := read_at_bounds hq
    have hpq : page ≠ q := by
      intro hx
      subst hx
      rw [he] at heq
      cases heq
      exact hqb hb
    obtain ⟨n, rest, hl, hn⟩ := hpol.1 ha
    have hnd := (hI.fifo_inv ha).1
    rw [hl] at hnd
    simp only [ids, List.map_cons, hn, List.nodup_cons] at hnd
    have hids : ids s.fifo = v :: ids rest := by rw [hl]; simp [ids, hn]
    have hlog : log = q :: (ids rest).map (occupant s) := by
      rw [hJ, hids, List.map_cons]
      simp only [occupant, hq]
    have hq2 : is_resident s2 q = false := by
      rw [Bool.eq_false_iff]
      intro hx
      obtain ⟨e1, a1, a2⟩ := (is_resident_iff s2 q).mp hx
      rw [hpt, read_at_set_ne _ _ _ _ hp.1 hpq.symm,
        read_at_set_self _ _ _ hqb2.1 hqb2.2] at a1
      cases a1
      exact a2 rfl
    have hother : ∀ p, p ≠ q → is_resident s p = true → is_resident s2 p = true := by
      intro p hpq2 hp1
      obtain ⟨e1, a1, a2⟩ := (is_resident_iff s p).mp hp1
      rw [is_resident_iff, hpt]
      by_cases hpp : p = page
      · subst hpp
        rw [he] at a1
        cases a1
        exact absurd hb a2
      · exact ⟨e1, by
          rw [read_at_set_ne _ _ _ _ hp.1 hpp, read_at_set_ne _ _ _ _ hqb2.1 hpq2]
          exact a1, a2⟩
    constructor
    · rw [hm, hfifo, ids_add_node, List.map_append, hlog, hl]
      simp only [if_true, List.map_cons, List.map_nil, List.tail_cons, List.filter_cons, hq2]
      congr 1
      · rw [List.filter_eq_self.mpr]
        · apply List.map_congr_left
          intro g hg
          have hgv : g ≠ v := fun hx => hnd.1 (hx ▸ hg)
          simp only [occupant, hfi, read_at_set_ne _ _ _ _ hvb.1 hgv]
        · intro p hp1
          obtain ⟨g, hg, hgp⟩ := List.mem_map.mp hp1
          have hgm : g ∈ ids s.fifo := by rw [hids]; exact List.mem_cons_of_mem _ hg
          obtain ⟨p1, ep, b1, b2, b3, b4⟩ := hres g hgm
          simp only [occupant, b1] at hgp
          subst hgp
          have hne : p1 ≠ q := by
            intro hx
            subst hx
            rw [heq] at b2
            cases b2
            exact hnd.1 (by rw [← hqf, b4]; exact hg)
          exact hother p1 hne ((is_resident_iff s p1).mpr ⟨ep, b2, b3⟩)
      · simp only [occupant, hfi, read_at_set_self _ _ _ hvb.1 hvb.2]
    · intro p h3 h4
      by_cases hpq2 : p = q
      · subst hpq2
        rw [hlog]
        rfl
      · rw [hother p hpq2 h3] at h4
        cases h4

theorem fifo_order_run (npages : Nat) (evs : List (Int × Int)) :
    ∀ (s : State) (log : List Int), Inv s → s.page_algo = .FIFO → s.pt.length = npages →
      log = (ids s.fifo).map (occupant s) → (∀ ev ∈ evs, valid_fault npages ev) →
      ∃ s2, run s evs = .ok s2 ∧ load_order s evs log = (ids s2.fifo).map (occupant s2) := by
  induction evs with
  | nil =>
    intro s log _ _ _ hJ _
    exact ⟨s, rfl, hJ⟩
  | cons ev rest ih =>
    intro s log hI ha hl hJ hev
    have hv := hev ev (List.mem_cons_self _ _)
    have hp : 0 ≤ ev.1 ∧ ev.1 < s.pt.length := ⟨hv.1, by rw [hl]; exact hv.2.1⟩
    obtain ⟨s1, h1, hI1, hl1, -, ha1⟩ := Inv_step s hI ev.1 ev.2 hp hv.2.2.1
    obtain ⟨hJ1, -⟩ := fifo_order_step s hI ha ev.1 ev.2 hp hv.2.2.1 log hJ s1 h1
    obtain ⟨s2, h2, r⟩ := ih s1 _ hI1 (ha1.trans ha) (hl1.trans hl) hJ1
      (fun x hx => hev x (List.mem_cons_of_mem _ hx))
    refine ⟨s2, by simp only [run, h1]; exact h2, ?_⟩
    simp only [load_order, h1]
    exact r

theorem occupant_log_resident {s : State} (hI : Inv s) (l : List node_t)
    (hnd : (ids l).Nodup) (hocc : ∀ f, f ∈ ids l ↔ read_at s.free_frames f = .ok 1) :
    ((ids l).map (occupant s)).Nodup ∧
      ∀ p, p ∈ (ids l).map (occupant s) ↔ is_resident s p = true := by
  constructor
  · apply List.Nodup.map_on _ hnd
    intro f hf g hg hfg
    obtain ⟨p1, e1, a1, a2, -, a4⟩ := hI.occ_page f ((hocc f).mp hf)
    obtain ⟨p2, e2, b1, b2, -, b4⟩ := hI.occ_page g ((hocc g).mp hg)
    simp only [occupant, a1, b1] at hfg
    subst hfg
    rw [a2] at b2
    cases b2
    exact a4.symm.trans b4
  · intro p
    rw [is_resident_iff, List.mem_map]
    constructor
    · rintro ⟨f, hf, hfp⟩
      obtain ⟨p1, e1, a1, a2, a3, -⟩ := hI.occ_page f ((hocc f).mp hf)
      simp only [occupant, a1] at hfp
      subst hfp
      exact ⟨e1, a2, a3⟩
    · rintro ⟨e, he, hb⟩
      obtain ⟨r1, r2⟩ := hI.res_frame p e he hb
      exact ⟨e.frame, (hocc e.frame).mpr r1, by simp only [occupant, r2]⟩

/-- C6: under FIFO, after any run from the initial state the recorded load order
lists exactly the resident pages, each once, and whenever the next fault evicts a
page (resident before, unmapped after) that page is the head of the load order: the
resident page loaded longest ago.  With two frames, faults on pages 0, 1, 2, 3 evict
page 0 at the third fault and page 1 at the fourth. -/
theorem c6_fifo_order (npages : Nat) (nframes : Int) (pm d : List Block)
    (evs : List (Int × Int)) (page rnd : Int) (hn : 1 ≤ nframes)
    (hpm : (pm.length : Int) = nframes) (hd : d.length = npages)
    (hev : ∀ ev ∈ evs, valid_fault npages ev) (hf : valid_fault npages (page, rnd)) :
    (∃ s s2, reach npages nframes .FIFO pm d evs = .ok s ∧
      page_fault_handler s page rnd = .ok s2 ∧
      (reach_load_order npages nframes .FIFO pm d evs).Nodup ∧
      (∀ p, p ∈ reach_load_order npages nframes .FIFO pm d evs ↔ is_resident s p = true) ∧
      (∀ q, is_resident s q = true → is_resident s2 q = false →
        (reach_load_order npages nframes .FIFO pm d evs).head? = some q)) ∧
    fifo_two_frame_example := by
  constructor
  · have hI0 := Inv_init npages nframes .FIFO pm d hn hpm hd
    have e1 := init_state_eq npages nframes .FIFO pm d hn
    obtain ⟨s, h1, hI, hl, -, ha⟩ := run_ok npages evs _ hI0 (by simp) hev
    obtain ⟨s1, h2, hJ⟩ := fifo_order_run npages evs _ [] hI0 rfl (by simp) (by simp [ids]) hev
    rw [h1] at h2
    cases h2
    have ha2 : s.page_algo = .FIFO := ha
    have hp : 0 ≤ page ∧ page < s.pt.length := ⟨hf.1, by rw [hl]; exact hf.2.1⟩
    obtain ⟨s2, h3, -, -, -, -⟩ := Inv_step s hI page rnd hp hf.2.2.1
    obtain ⟨-, hhead⟩ := fifo_order_step s hI ha2 page rnd hp hf.2.2.1 _ hJ s2 h3
    obtain ⟨n1, n2⟩ := occupant_log_resident hI s.fifo (hI.fifo_inv ha2).1 (hI.fifo_inv ha2).2
    have e2 : reach_load_order npages nframes .FIFO pm d evs
        = (ids s.fifo).map (occupant s) := by
      simp only [reach_load_order, e1]
      exact hJ
    refine ⟨s, s2, by simp only [reach, e1]; exact h1, h3, ?_, ?_, ?_⟩
    · rw [e2]; exact n1
    · rw [e2]; exact n2
    · rw [e2, ← hJ]; exact hhead
  · exact ⟨_, _, _, rfl, rfl, rfl, ⟨rfl, rfl⟩, ⟨rfl, rfl, rfl⟩, ⟨rfl, rfl, rfl⟩⟩

/-- C6 on two frames: after faults on pages 0, 1, 0, the fault on page 2 evicts the
head of the load order. -/
theorem c6_fifo_order_witness :
    (∃ s s2, reach 4 2 .FIFO [[], []] [[10], [11], [12], [13]] [(0, 0), (1, 0), (0, 0)]
        = .ok s ∧
      page_fault_handler s 2 0 = .ok s2 ∧
      (reach_load_order 4 2 .FIFO [[], []] [[10], [11], [12], [13]]
        [(0, 0), (1, 0), (0, 0)]).Nodup ∧
      (∀ p, p ∈ reach_load_order 4 2 .FIFO [[], []] [[10], [11], [12], [13]]
        [(0, 0), (1, 0), (0, 0)] ↔ is_resident s p = true) ∧
      (∀ q, is_resident s q = true → is_resident s2 q = false →
        (reach_load_order 4 2 .FIFO [[], []] [[10], [11], [12], [13]]
          [(0, 0), (1, 0), (0, 0)]).head? = some q)) ∧
    fifo_two_frame_example :=
  c6_fifo_order 4 2 [[], []] [[10], [11], [12], [13]] [(0, 0), (1, 0), (0, 0)] 2 0
    (by decide) (by decide) (by decide) (by decide) (by decide)

/-! ## C7: the recency policy evicts the least recently touched frame -/

/-- C11: in a state reachable from the initial state in which every frame is
occupied, a fault on a page with neither `PROT_READ` nor `PROT_WRITE` set returns
under any policy; it selects a victim frame `v` with occupant `q`, and afterwards
`q` has permission `0`, the faulting page is mapped to `v` with permission exactly
`PROT_READ`, `frames_info[v]` is the faulting page, frame `v` holds its disk content,
and every other page keeps its entry. -/
theorem c11_missing_page_eviction (npages : Nat) (nframes : Int) (a : algo)
    (pm d : List Block) (evs : List (Int × Int)) (hn : 1 ≤ nframes)
    (hpm : (pm.length : Int) = nframes) (hd : d.length = npages)
    (hev : ∀ ev ∈ evs, valid_fault npages ev) (s : State)
    (hs : reach npages nframes a pm d evs = .ok s) (page rnd : Int) (e : pt_entry)
    (hr : 0 ≤ rnd ∧ rnd < 2147483648)
    (he : read_at s.pt page = .ok e)
    (hmiss : Int.land e.bits PROT_READ = 0 ∧ Int.land e.bits PROT_WRITE = 0)
    (hfull : ∀ j, 0 ≤ j → j < s.nframes → read_at s.free_frames j ≠ .ok 0) :
    ∃ v q s2, page_fault_handler s page rnd = .ok s2 ∧ evicted_and_loaded s s2 page v q := by
  obtain ⟨hI, -, -, -⟩ := Inv_of_reach npages nframes a pm d evs hn hpm hd hev s hs
  have hb := Inv_missing_bits hI he hmiss
  have hpb := read_at_bounds he
  obtain ⟨v, q, eq, buf, blk, hv, hq, heq, hqb, hqf, hbuf, hblk, -, hh⟩ :=
    handler_evict_ok s hI page rnd e he hb hr.1 hfull
  have hqb2 := read_at_bounds heq
  have hvb := read_at_bounds hq
  have hvp := read_at_bounds hbuf
  have hpq : page ≠ q := by
    intro hx
    subst hx
    rw [he] at heq
    cases heq
    exact hqb hb
  have hpl : page < ((s.pt.set q.toNat ⟨0, 0⟩).length : Int) := by
    rw [List.length_set]; exact hpb.2
  have hdisk : read_at s.disk page = .ok blk := by
    rw [← hblk]
    split_ifs
    · exact (read_at_set_ne _ _ _ _ hqb2.1 hpq).symm
    · rfl
  refine ⟨v, q, _, hh, hv, hq, ⟨eq, heq, hqb, hqf⟩, ⟨⟨0, 0⟩, ?_, rfl⟩, ?_, ?_,
    ⟨blk, hdisk, hblk, ?_⟩, rfl, ?_⟩
  · show read_at ((s.pt.set q.toNat ⟨0, 0⟩).set page.toNat _) q = _
    rw [read_at_set_ne _ _ _ _ hpb.1 hpq.symm]
    exact read_at_set_self _ _ _ hqb2.1 hqb2.2
  · exact read_at_set_self _ _ _ hpb.1 hpl
  · exact read_at_set_self _ _ _ hvb.1 hvb.2
  · exact read_at_set_self _ _ _ hvp.1 hvp.2
  · intro p2 h1 h2
    show read_at ((s.pt.set q.toNat ⟨0, 0⟩).set page.toNat _) p2 = _
    rw [read_at_set_ne _ _ _ _ hpb.1 h1, read_at_set_ne _ _ _ _ hqb2.1 h2]

/-- C11 at the full two-frame state: the fault on page 2 evicts a page. -/
theorem c11_missing_page_eviction_witness :
    ∃ v q s2, page_fault_handler two_resident_state 2 0 = .ok s2 ∧
      evicted_and_loaded two_resident_state s2 2 v q :=
  c11_missing_page_eviction 3 2 .FIFO [[], []] [[10], [11], [12]] [(0, 0), (0, 0), (1, 0)]
    (by decide) (by decide) (by decide) (by decide) two_resident_state
    reach_two_resident_state 2 0 ⟨0, 0⟩ (by decide) rfl (by decide)
    (by
      intro j h0 h1
      have h2 : j < 2 := h1
      have hj : j = 0 ∨ j = 1 := by omega
      rcases hj with h | h <;> subst h <;> intro hx <;> cases hx)

/-! ## C12, C13: protection faults -/

/-- Whatever the state, a fault on a page that has some permission rewrites that
page's entry with the same frame and changes nothing else but the fault counter
and, under the recency policy, the recency counters. -/
theorem handler_prot_rewrites (s : State) (page rnd : Int) (e : pt_entry)
    (he : read_at s.pt page = .ok e)
    (hres : ¬ (Int.land e.bits PROT_READ = 0 ∧ Int.land e.bits PROT_WRITE = 0)) :
    ∃ s2, page_fault_handler s page rnd = .ok s2 ∧
      permission_rewritten s s2 page e
        (if Int.land e.bits PROT_READ = 1 ∧ Int.land e.bits PROT_WRITE = 0
          then Int.lor e.bits PROT_WRITE else Int.lor e.bits PROT_READ) ∧
      s2.fifo = s.fifo ∧
      s2.lru = (if s.page_algo = .CUSTOM then update_access s.lru e.frame else s.lru) := by
  have hpb := read_at_bounds he
  refine ⟨_, handler_prot_eq s page rnd e he hres,
    ⟨read_at_set_self _ _ _ hpb.1 hpb.2, rfl, rfl, rfl, rfl, rfl, rfl, rfl, ?_⟩, rfl, rfl⟩
  intro q hq
  exact read_at_set_ne _ _ _ _ hpb.1 hq

/-- C12: a fault on a page whose permission is exactly `PROT_READ` returns; the
page's entry is rewritten with the same frame and permission
`PROT_READ|PROT_WRITE`; no disk read or write is made, and the disk, the physical
memory, the frame table and every other page's entry are unchanged. -/
theorem c12_protection_upgrade (s : State) (page rnd : Int) (e : pt_entry)
    (he : read_at s.pt page = .ok e) (hb : e.bits = PROT_READ) :
    ∃ s2, page_fault_handler s page rnd = .ok s2 ∧
      permission_rewritten s s2 page e (Int.lor PROT_READ PROT_WRITE) := by
  have hres : ¬ (Int.land e.bits PROT_READ = 0 ∧ Int.land e.bits PROT_WRITE = 0) := by
    rw [hb]; decide
  obtain ⟨s2, h1, h2, -, -⟩ := handler_prot_rewrites s page rnd e he hres
  refine ⟨s2, h1, ?_⟩
  have hbits : (if Int.land e.bits PROT_READ = 1 ∧ Int.land e.bits PROT_WRITE = 0
      then Int.lor e.bits PROT_WRITE else Int.lor e.bits PROT_READ)
      = Int.lor PROT_READ PROT_WRITE := by
    rw [hb]; decide
  rw [hbits] at h2
  exact h2

/-- C12 at a state where page 0 has permission `PROT_READ`. -/
theorem c12_protection_upgrade_witness :
    ∃ s2, page_fault_handler one_resident_state 0 0 = .ok s2 ∧
      permission_rewritten one_resident_state s2 0 ⟨0, 1⟩ (Int.lor PROT_READ PROT_WRITE) :=
  c12_protection_upgrade one_resident_state 0 0 ⟨0, 1⟩ rfl rfl

/-- C13, as stated, fails: at a state where page 0 has permission
`PROT_READ|PROT_WRITE`, the fault on page 0 does not leave it with permission
`PROT_READ`. -/
theorem c13_write_revoked_counterexample :
    read_at two_resident_state.pt 0 = .ok ⟨0, Int.lor PROT_READ PROT_WRITE⟩ ∧
    ¬ ∃ s2 e2, page_fault_handler two_resident_state 0 0 = .ok s2 ∧
        read_at s2.pt 0 = .ok e2 ∧ e2.bits = PROT_READ := by
  refine ⟨rfl, ?_⟩
  rintro ⟨s2, e2, h1, h2, h3⟩
  have h4 : page_fault_handler two_resident_state 0 0 = .ok
      { two_resident_state with page_faults := 4 } := rfl
  rw [h4] at h1
  cases h1
  have h5 : read_at ({ two_resident_state with page_faults := 4 } : State).pt 0
      = .ok ⟨0, 3⟩ := rfl
  rw [h5] at h2
  cases h2
  exact absurd h3 (by decide)

/-- C13, amended: a fault on a page whose permission has `PROT_WRITE` set returns
and rewrites the entry with the same frame and permission `curr_bits | PROT_READ`,
changing nothing else in the page table, the frame table, the memory or the disk;
when the permission is `PROT_READ|PROT_WRITE` the entry is written back unchanged,
so `PROT_WRITE` is kept. -/
theorem c13_write_kept (s : State) (page rnd : Int) (e : pt_entry)
    (he : read_at s.pt page = .ok e) (hw : Int.land e.bits PROT_WRITE ≠ 0) :
    ∃ s2, page_fault_handler s page rnd = .ok s2 ∧
      permission_rewritten s s2 page e (Int.lor e.bits PROT_READ) ∧
      (e.bits = Int.lor PROT_READ PROT_WRITE → read_at s2.pt page = .ok e) := by
  have hres : ¬ (Int.land e.bits PROT_READ = 0 ∧ Int.land e.bits PROT_WRITE = 0) :=
    fun h => hw h.2
  obtain ⟨s2, h1, h2, -, -⟩ := handler_prot_rewrites s page rnd e he hres
  have hbits : (if Int.land e.bits PROT_READ = 1 ∧ Int.land e.bits PROT_WRITE = 0
      then Int.lor e.bits PROT_WRITE else Int.lor e.bits PROT_READ)
      = Int.lor e.bits PROT_READ := by
    rw [if_neg (fun h => hw h.2)]
  rw [hbits] at h2
  refine ⟨s2, h1, h2, ?_⟩
  intro hb
  rw [h2.1]
  have h3 : Int.lor e.bits PROT_READ = e.bits := by
    rw [hb]; decide
  rw [h3]

/-- C13, amended, at a state where page 0 has permission `PROT_READ|PROT_WRITE`. -/
theorem c13_write_kept_witness :
    ∃ s2, page_fault_handler two_resident_state 0 0 = .ok s2 ∧
      permission_rewritten two_resident_state s2 0 ⟨0, 3⟩ (Int.lor 3 PROT_READ) ∧
      ((3 : Int) = Int.lor PROT_READ PROT_WRITE →
        read_at s2.pt 0 = .ok (⟨0, 3⟩ : pt_entry)) :=
  c13_write_kept two_resident_state 0 0 ⟨0, 3⟩ rfl (by decide)

/-! ## C14: the FIFO queue -/

/-- One FIFO fault keeps the queue equal to the load order of the frames. -/
theorem frame_order_step (s : State) (hI : Inv s) (ha : s.page_algo = .FIFO)
    (page rnd : Int) (hp : 0 ≤ page ∧ page < s.pt.length) (hr : 0 ≤ rnd) (s2 : State)
    (h : page_fault_handler s page rnd = .ok s2) :
    ∃ e2, read_at s2.pt page = .ok e2 ∧
      (if is_missing s page then (ids s.fifo).erase e2.frame ++ [e2.frame] else ids s.fifo)
        = ids s2.fifo ∧
      (is_missing s page = false → s2.fifo = s.fifo) := by
  obtain ⟨e, he, hcase⟩ := step_cases s hI page rnd hp hr
  rcases hcase with ⟨hb, hh⟩ | ⟨hb, f, blk, h0, h1, h2, -, -, hh⟩ |
    ⟨hb, hfull, v, q, eq, buf, blk, hv, hq, heq, hqb, hqf, hbuf, hblk, hpol, hh⟩
  · have hs2 := Except.ok.inj (hh.symm.trans h)
    have hpt : s2.pt = s.pt.set page.toNat ⟨e.frame, 3⟩ := by rw [← hs2]
    have hfifo : s2.fifo = s.fifo := by rw [← hs2]
    have hm := is_missing_of_resident s page e he hb
    refine ⟨⟨e.frame, 3⟩, by rw [hpt]; exact read_at_set_self _ _ _ hp.1 hp.2, ?_,
      fun _ => hfifo⟩
    rw [hm, hfifo]
    simp
  · have hs2 := Except.ok.inj (hh.symm.trans h)
    have hpt : s2.pt = s.pt.set page.toNat ⟨f, 1⟩ := by rw [← hs2]
    have hfifo : s2.fifo = add_node s.fifo f := by rw [← hs2]; simp [ha]
    have hm := is_missing_of_bits_zero s page e he hb
    have hnotin : f ∉ ids s.fifo := by
      intro hx
      have := ((hI.fifo_inv ha).2 f).mp hx
      rw [h2] at this
      exact absurd (Except.ok.inj this) (by decide)
    refine ⟨⟨f, 1⟩, by rw [hpt]; exact read_at_set_self _ _ _ hp.1 hp.2, ?_, ?_⟩
    · rw [hm, hfifo, ids_add_node, List.erase_of_not_mem hnotin]
      simp
    · intro hx
      rw [hm] at hx
      cases hx
  · have hs2 := Except.ok.inj (hh.symm.trans h)
    have hpt : s2.pt = (s.pt.set q.toNat ⟨0, 0⟩).set page.toNat ⟨v, 1⟩ := by rw [← hs2]
    have hfifo : s2.fifo = add_node s.fifo.tail v := by rw [← hs2]; simp [ha]
    have hm := is_missing_of_bits_zero s page e he hb
    have hpl : page < ((s.pt.set q.toNat ⟨0, 0⟩).length : Int) := by
      rw [List.length_set]; exact hp.2
    obtain ⟨n, rest, hl, hn⟩ := hpol.1 ha
    refine ⟨⟨v, 1⟩, by rw [hpt]; exact read_at_set_self _ _ _ hp.1 hpl, ?_, ?_⟩
    · rw [hm, hfifo, ids_add_node, hl]
      simp [ids, hn]
    · intro hx
      rw [hm] at hx
      cases hx

theorem frame_order_run (npages : Nat) (evs : List (Int × Int)) :
    ∀ (s : State), Inv s → s.page_algo = .FIFO → s.pt.length = npages →
      (∀ ev ∈ evs, valid_fault npages ev) →
      ∃ s2, run s evs = .ok s2 ∧ frame_load_order s evs (ids s.fifo) = ids s2.fifo := by
  induction evs with
  | nil =>
    intro s _ _ _ _
    exact ⟨s, rfl, rfl⟩
  | cons ev rest ih =>
    intro s hI ha hl hev
    have hv := hev ev (List.mem_cons_self _ _)
    have hp : 0 ≤ ev.1 ∧ ev.1 < s.pt.length := ⟨hv.1, by rw [hl]; exact hv.2.1⟩
    obtain ⟨s1, h1, hI1, hl1, -, ha1⟩ := Inv_step s hI ev.1 ev.2 hp hv.2.2.1
    obtain ⟨e2, r1, r2, -⟩ := frame_order_step s hI ha ev.1 ev.2 hp hv.2.2.1 s1 h1
    obtain ⟨s2, h2, r⟩ := ih s1 hI1 (ha1.trans ha) (hl1.trans hl)
      (fun x hx => hev x (List.mem_cons_of_mem _ hx))
    refine ⟨s2, by simp only [run, h1]; exact h2, ?_⟩
    simp only [frame_load_order, h1, r1, r2]
    exact r

/-- C14: under FIFO, after any run from the initial state the queue holds each
occupied frame id exactly once and no other id, in the order of the frames' most
recent loads (head = oldest load); a protection fault leaves the queue unchanged. -/
theorem c14_fifo_queue (npages : Nat) (nframes : Int) (pm d : List Block)
    (evs : List (Int × Int)) (page rnd : Int) (hn : 1 ≤ nframes)
    (hpm : (pm.length : Int) = nframes) (hd : d.length = npages)
    (hev : ∀ ev ∈ evs, valid_fault npages ev) (hf : valid_fault npages (page, rnd)) :
    ∃ s s2, reach npages nframes .FIFO pm d evs = .ok s ∧
      page_fault_handler s page rnd = .ok s2 ∧
      (ids s.fifo).Nodup ∧
      (∀ f, f ∈ ids s.fifo ↔ read_at s.free_frames f = .ok 1) ∧
      ids s.fifo = reach_frame_load_order npages nframes .FIFO pm d evs ∧
      (is_missing s page = false → s2.fifo = s.fifo) := by
  obtain ⟨s0, e1, hI0, hl0, hfifo0, ha0⟩ : ∃ s0, init_state npages nframes .FIFO pm d = .ok s0 ∧
      Inv s0 ∧ s0.pt.length = npages ∧ s0.fifo = [] ∧ s0.page_algo = .FIFO :=
    ⟨_, init_state_eq npages nframes .FIFO pm d hn,
      Inv_init npages nframes .FIFO pm d hn hpm hd, by simp, rfl, rfl⟩
  obtain ⟨s, h1, hI, hl, -, ha⟩ := run_ok npages evs s0 hI0 hl0 hev
  obtain ⟨s1, h2, hJ⟩ := frame_order_run npages evs s0 hI0 ha0 hl0 hev
  rw [h1] at h2
  cases h2
  rw [ha0] at ha
  have hp : 0 ≤ page ∧ page < s.pt.length := ⟨hf.1, by rw [hl]; exact hf.2.1⟩
  obtain ⟨s2, h3, -, -, -, -⟩ := Inv_step s hI page rnd hp hf.2.2.1
  obtain ⟨e2, -, -, hprot⟩ := frame_order_step s hI ha page rnd hp hf.2.2.1 s2 h3
  refine ⟨s, s2, by simp only [reach, e1]; exact h1, h3, (hI.fifo_inv ha).1,
    (hI.fifo_inv ha).2, ?_, hprot⟩
  simp only [reach_frame_load_order, e1]
  rw [← hJ, hfifo0]
  rfl

/-- C14 on two frames: after faults on pages 0, 1, 2, 2, a protection fault. -/
theorem c14_fifo_queue_witness :
    ∃ s s2, reach 4 2 .FIFO [[], []] [[10], [11], [12], [13]]
        [(0, 0), (1, 0), (2, 0), (2, 0)] = .ok s ∧
      page_fault_handler s 1 0 = .ok s2 ∧
      (ids s.fifo).Nodup ∧
      (∀ f, f ∈ ids s.fifo ↔ read_at s.free_frames f = .ok 1) ∧
      ids s.fifo = reach_frame_load_order 4 2 .FIFO [[], []] [[10], [11], [12], [13]]
        [(0, 0), (1, 0), (2, 0), (2, 0)] ∧
      (is_missing s 1 = false → s2.fifo = s.fifo) :=
  c14_fifo_queue 4 2 [[], []] [[10], [11], [12], [13]] [(0, 0), (1, 0), (2, 0), (2, 0)]
    1 0 (by decide) (by decide) (by decide) (by decide) (by decide)

/-! ## C15: the random victim -/

/-- If `select_free_frame` returns `-1`, no frame is free. -/
theorem full_of_select_none (nframes : Int) (ff ff2 : List Int)
    (hlen : (ff.length : Int) = nframes)
    (h : select_free_frame nframes ff = .ok (-1, ff2)) :
    ∀ j, 0 ≤ j → j < nframes → read_at ff j ≠ .ok 0 := by
  rcases select_free_frame_cases nframes ff hlen with ⟨j, h0, -, -, -, h4⟩ | ⟨hfull, -⟩
  · rw [h4] at h
    have h5 := congrArg Prod.fst (Except.ok.inj h)
    simp only at h5
    omega
  · exact hfull

/-- C15: in a state reached under the random policy, for every `lrand48` value `r`
with `0 <= r < 2^31` the index `r % nframes` that `rand_replace_page` passes to
`replace_page` lies in `[0, nframes)`; and when `select_free_frame` has returned
`-1`, that index is an occupied frame whose recorded occupant is a resident page
mapped to it. -/
theorem c15_random_victim (npages : Nat) (nframes : Int) (pm d : List Block)
    (evs : List (Int × Int)) (hn : 1 ≤ nframes) (hpm : (pm.length : Int) = nframes)
    (hd : d.length = npages) (hev : ∀ ev ∈ evs, valid_fault npages ev) (s : State)
    (hs : reach npages nframes .RAND pm d evs = .ok s) (r : Int)
    (hr : 0 ≤ r ∧ r < 2147483648) :
    (0 ≤ Int.tmod r nframes ∧ Int.tmod r nframes < nframes) ∧
    (∀ page, rand_replace_page s page r = replace_page s page (Int.tmod r nframes)) ∧
    (∀ ff, select_free_frame s.nframes s.free_frames = .ok (-1, ff) →
      read_at s.free_frames (Int.tmod r nframes) = .ok 1 ∧
      ∃ q e, read_at s.frames_info (Int.tmod r nframes) = .ok q ∧
        read_at s.pt q = .ok e ∧ e.bits ≠ 0 ∧ e.frame = Int.tmod r nframes) := by
  obtain ⟨hI, -, hnf, -⟩ := Inv_of_reach npages nframes .RAND pm d evs hn hpm hd hev s hs
  have hpos : 0 < nframes := by omega
  have h0 := Int.tmod_nonneg nframes hr.1
  have h1 := Int.tmod_lt_of_pos r hpos
  refine ⟨⟨h0, h1⟩, ?_, ?_⟩
  · intro page
    have hne : nframes ≠ 0 := by omega
    simp only [rand_replace_page, hnf, hne, if_false]
  · intro ff hsel
    have hfull := full_of_select_none s.nframes s.free_frames ff hI.len_ff hsel
    have hocc := Inv_full_occupied hI hfull (Int.tmod r nframes) h0 (by rw [hnf]; exact h1)
    exact ⟨hocc, hI.occ_page _ hocc⟩

/-- C15 at the state after faults on pages 0 and 1 on two frames. -/
theorem c15_random_victim_witness :
    (0 ≤ Int.tmod 12345 2 ∧ Int.tmod 12345 2 < 2) ∧
    (∀ page, rand_replace_page
        { two_resident_state with page_algo := .RAND, fifo := [] } page 12345 =
      replace_page { two_resident_state with page_algo := .RAND, fifo := [] } page
        (Int.tmod 12345 2)) ∧
    (∀ ff, select_free_frame 2 [1, 1] = .ok (-1, ff) →
      read_at ([1, 1] : List Int) (Int.tmod 12345 2) = .ok 1 ∧
      ∃ q e, read_at ([0, 1] : List Int) (Int.tmod 12345 2) = .ok q ∧
        read_at ([⟨0, 3⟩, ⟨1, 1⟩, ⟨0, 0⟩] : List pt_entry) q = .ok e ∧ e.bits ≠ 0 ∧
        e.frame = Int.tmod 12345 2) :=
  c15_random_victim 3 2 [[], []] [[10], [11], [12]] [(0, 0), (0, 0), (1, 0)]
    (by decide) (by decide) (by decide) (by decide)
    { two_resident_state with page_algo := .RAND, fifo := [] } rfl 12345 (by decide)

/-! ## C16: the recency counters -/

theorem update_access_getElem? (l : List node_t) (f : Int) (i : Nat) (n : node_t)
    (h : l[i]? = some n) :
    (update_access l f)[i]? =
      some (if n.id ≠ f then { n with lru := int_incr n.lru } else { n with lru := 1 }) := by
  simp only [update_access, List.getElem?_map, h, Option.map_some']

theorem update_access_add_node_fresh (l : List node_t) (f : Int) (hf : f ∉ ids l) :
    update_access (add_node l f) f
      = l.map (fun n => { n with lru := int_incr n.lru }) ++ [⟨f, 1⟩] := by
  simp only [update_access, add_node, List.map_append, List.map_cons, List.map_nil,
    create_node, ne_eq, not_true_eq_false, if_false]
  congr 1
  apply List.map_congr_left
  intro n hn
  have hne : n.id ≠ f := fun hx => hf (hx ▸ mem_ids_of_mem hn)
  simp only [hne, not_false_eq_true, if_true]

/-- A frame that is free is not in the recency list. -/
theorem free_frame_untracked {s : State} (hI : Inv s) (ha : s.page_algo = .CUSTOM) (f : Int)
    (hfree : read_at s.free_frames f = .ok 0) : f ∉ ids s.lru := by
  intro hx
  have := ((hI.lru_inv ha).2 f).mp hx
  rw [hfree] at this
  exact absurd (Except.ok.inj this) (by decide)

/-- Under the recency policy, a load into a free frame appends the frame with
counter `1` and increments every other counter. -/
theorem handler_load_recency (s : State) (hI : Inv s) (ha : s.page_algo = .CUSTOM)
    (page rnd : Int) (hp : 0 ≤ page ∧ page < s.pt.length) (hr : 0 ≤ rnd)
    (hmiss : is_missing s page = true)
    (hfree : ∃ j, 0 ≤ j ∧ j < s.nframes ∧ read_at s.free_frames j = .ok 0) :
    ∃ s2 e2, page_fault_handler s page rnd = .ok s2 ∧ read_at s2.pt page = .ok e2 ∧
      read_at s.free_frames e2.frame = .ok 0 ∧
      s2.lru = s.lru.map (fun n => { n with lru := int_incr n.lru }) ++ [⟨e2.frame, 1⟩] := by
  obtain ⟨e, he, hcase⟩ := step_cases s hI page rnd hp hr
  rcases hcase with ⟨hb, -⟩ | ⟨hb, f, blk, h0, h1, h2, -, -, hh⟩ | ⟨-, hfull, -⟩
  · rw [is_missing_of_resident s page e he hb] at hmiss
    cases hmiss
  · refine ⟨_, ⟨f, 1⟩, hh, read_at_set_self _ _ _ hp.1 hp.2, h2, ?_⟩
    show (if s.page_algo = .CUSTOM then update_access (add_node s.lru f) f else s.lru) = _
    rw [if_pos ha]
    exact update_access_add_node_fresh s.lru f (free_frame_untracked hI ha f h2)
  · obtain ⟨j, j0, j1, j2⟩ := hfree
    exact absurd j2 (hfull j j0 j1)

/-- C16 (amended): `update_access` keeps the length, the ids and the order of the
list; the node at each position keeps its id and gets counter `1` if its id is `f`;
otherwise its counter, an `int`, grows by exactly one if it is below `INT_MAX`, and
becomes `INT_MIN` if it is `INT_MAX`.  `add_node` followed by `update_access` for a
frame `f` that is not yet in the list appends `f` with counter `1` and adds one to
every other counter, all of them being below `INT_MAX`. -/
theorem c16_update_access (l : List node_t) (f : Int) :
    (∀ g, (update_access l g).length = l.length ∧ ids (update_access l g) = ids l ∧
      ∀ (i : Nat) (n : node_t), l[i]? = some n →
        ∃ m : node_t, (update_access l g)[i]? = some m ∧ m.id = n.id ∧
        (n.id = g → m.lru = 1) ∧
        (n.id ≠ g → -2147483648 ≤ n.lru → n.lru < 2147483647 → m.lru = n.lru + 1) ∧
        (n.id ≠ g → n.lru = 2147483647 → m.lru = -2147483648)) ∧
    (f ∉ ids l → (∀ n ∈ l, -2147483648 ≤ n.lru ∧ n.lru < 2147483647) →
      update_access (add_node l f) f
        = l.map (fun n => { n with lru := n.lru + 1 }) ++ [⟨f, 1⟩]) := by
  refine ⟨fun g => ⟨by simp [update_access], ids_update_access l g, ?_⟩, ?_⟩
  · intro i n h
    refine ⟨_, update_access_getElem? l g i n h, ?_, ?_, ?_, ?_⟩
    · by_cases hg : n.id = g <;> simp [hg]
    · intro hg
      simp [hg]
    · intro hg h1 h2
      simp only [hg, ne_eq, not_false_eq_true, if_true]
      exact int_incr_eq n.lru h1 h2
    · intro hg h1
      simp only [hg, ne_eq, not_false_eq_true, if_true, h1]
      exact int_incr_max
  · intro hf hb
    rw [update_access_add_node_fresh l f hf]
    congr 1
    apply List.map_congr_left
    intro n hn
    rw [int_incr_eq n.lru (hb n hn).1 (hb n hn).2]

/-- C16 on the list tracking frame 0 with counter 2 and frame 1 with counter 1:
`update_access` for frame 1 keeps the length and the ids, takes frame 0 to counter
3 and frame 1 to counter 1; a load into frame 2, which is not in the list and finds
both counters below `INT_MAX`, gives counters 3, 2 and 1. -/
theorem c16_update_access_witness :
    (update_access [⟨0, 2⟩, ⟨1, 1⟩] 1).length = 2 ∧
    ids (update_access [⟨0, 2⟩, ⟨1, 1⟩] 1) = [0, 1] ∧
    (∃ m : node_t, (update_access [⟨0, 2⟩, ⟨1, 1⟩] 1)[0]? = some m ∧ m.id = 0 ∧ m.lru = 3) ∧
    (∃ m : node_t, (update_access [⟨0, 2⟩, ⟨1, 1⟩] 1)[1]? = some m ∧ m.id = 1 ∧ m.lru = 1) ∧
    (2 ∉ ids [⟨0, 2⟩, ⟨1, 1⟩]) ∧
    (∀ n ∈ [(⟨0, 2⟩ : node_t), ⟨1, 1⟩], -2147483648 ≤ n.lru ∧ n.lru < 2147483647) ∧
    update_access (add_node [⟨0, 2⟩, ⟨1, 1⟩] 2) 2 = [⟨0, 3⟩, ⟨1, 2⟩, ⟨2, 1⟩] := by
  have h := c16_update_access [⟨0, 2⟩, ⟨1, 1⟩] 2
  obtain ⟨hl, hids, hpos⟩ := h.1 1
  obtain ⟨m0, a0, b0, -, c0, -⟩ := hpos 0 ⟨0, 2⟩ rfl
  obtain ⟨m1, a1, b1, c1, -, -⟩ := hpos 1 ⟨1, 1⟩ rfl
  exact ⟨hl, hids, ⟨m0, a0, b0, c0 (by decide) (by decide) (by decide)⟩,
    ⟨m1, a1, b1, c1 rfl⟩, by decide, by decide, h.2 (by decide) (by decide)⟩

/-- C16 as stated fails for a counter at `INT_MAX`: `update_access` for frame `1`
on a list in which frame `0` has counter `2147483647` leaves frame `0` with counter
`-2147483648`, which is not its old counter plus one. -/
theorem c16_counter_overflow_counterexample :
    update_access [⟨0, 2147483647⟩, ⟨1, 5⟩] 1 = [⟨0, -2147483648⟩, ⟨1, 1⟩] ∧
    (-2147483648 : Int) ≠ 2147483647 + 1 :=
  ⟨by decide, by decide⟩

/-! ## C17: the scan of `lru_replace_page` -/

/-- The scan started with a current best `b`: either `b` stays (no later counter
is strictly greater), or the result is the first node whose counter is the
maximum, and that counter is strictly greater than `b`'s. -/
theorem lru_scan_some_first (l : List node_t) :
    ∀ b : node_t,
      (lru_scan (some b) l = some b ∧ ∀ m ∈ l, m.lru ≤ b.lru) ∨
      (∃ (i : Nat) (n : node_t), l[i]? = some n ∧ lru_scan (some b) l = some n ∧
        b.lru < n.lru ∧ (∀ m ∈ l, m.lru ≤ n.lru) ∧
        ∀ (j : Nat) (m : node_t), j < i → l[j]? = some m → m.lru < n.lru) := by
  induction l with
  | nil =>
    intro b
    left
    exact ⟨rfl, fun m hm => by simp at hm⟩
  | cons c rest ih =>
    intro b
    by_cases hc : c.lru > b.lru
    · have hstep : lru_scan (some b) (c :: rest) = lru_scan (some c) rest := by
        simp [lru_scan, hc]
      rcases ih c with ⟨h1, h2⟩ | ⟨i, n, h1, h2, h3, h4, h5⟩
      · right
        refine ⟨0, c, by simp, by rw [hstep, h1], hc, ?_, ?_⟩
        · intro m hm
          rcases List.mem_cons.mp hm with hx | hx
          · rw [hx]
          · exact h2 m hx
        · intro j m hj
          exact absurd hj (Nat.not_lt_zero j)
      · right
        refine ⟨i + 1, n, by simpa using h1, by rw [hstep, h2], by omega, ?_, ?_⟩
        · intro m hm
          rcases List.mem_cons.mp hm with hx | hx
          · rw [hx]; omega
          · exact h4 m hx
        · intro j m hj hm
          cases j with
          | zero =>
            simp only [List.getElem?_cons_zero, Option.some.injEq] at hm
            rw [← hm]
            exact h3
          | succ j2 =>
            simp only [List.getElem?_cons_succ] at hm
            exact h5 j2 m (by omega) hm
    · have hstep : lru_scan (some b) (c :: rest) = lru_scan (some b) rest := by
        simp [lru_scan, hc]
      rcases ih b with ⟨h1, h2⟩ | ⟨i, n, h1, h2, h3, h4, h5⟩
      · left
        refine ⟨by rw [hstep, h1], ?_⟩
        intro m hm
        rcases List.mem_cons.mp hm with hx | hx
        · rw [hx]; omega
        · exact h2 m hx
      · right
        refine ⟨i + 1, n, by simpa using h1, by rw [hstep, h2], h3, ?_, ?_⟩
        · intro m hm
          rcases List.mem_cons.mp hm with hx | hx
          · rw [hx]; omega
          · exact h4 m hx
        · intro j m hj hm
          cases j with
          | zero =>
            simp only [List.getElem?_cons_zero, Option.some.injEq] at hm
            rw [← hm]
            omega
          | succ j2 =>
            simp only [List.getElem?_cons_succ] at hm
            exact h5 j2 m (by omega) hm

/-- The scan from `NULL` on a non-empty list returns the first node whose counter
is the maximum over the list. -/
theorem lru_scan_none_first (l : List node_t) (hne : l ≠ []) :
    ∃ (i : Nat) (n : node_t), l[i]? = some n ∧ lru_scan none l = some n ∧
      (∀ m ∈ l, m.lru ≤ n.lru) ∧
      ∀ (j : Nat) (m : node_t), j < i → l[j]? = some m → m.lru < n.lru := by
  cases l with
  | nil => exact absurd rfl hne
  | cons c rest =>
    have hstep : lru_scan none (c :: rest) = lru_scan (some c) rest := by
      simp [lru_scan]
    rcases lru_scan_some_first rest c with ⟨h1, h2⟩ | ⟨i, n, h1, h2, h3, h4, h5⟩
    · refine ⟨0, c, by simp, by rw [hstep, h1], ?_, ?_⟩
      · intro m hm
        rcases List.mem_cons.mp hm with hx | hx
        · rw [hx]
        · exact h2 m hx
      · intro j m hj
        exact absurd hj (Nat.not_lt_zero j)
    · refine ⟨i + 1, n, by simpa using h1, by rw [hstep, h2], ?_, ?_⟩
      · intro m hm
        rcases List.mem_cons.mp hm with hx | hx
        · rw [hx]; omega
        · exact h4 m hx
      · intro j m hj hm
        cases j with
        | zero =>
          simp only [List.getElem?_cons_zero, Option.some.injEq] at hm
          rw [← hm]
          exact h3
        | succ j2 =>
          simp only [List.getElem?_cons_succ] at hm
          exact h5 j2 m (by omega) hm

/-- C17: on a non-empty recency list the scan of `lru_replace_page` selects the
node at the first position whose counter is the maximum over the list: no node has
a greater counter, and every node before it has a strictly smaller one, so a later
node with an equal counter does not replace it. -/
theorem c17_recency_victim_selection (l : List node_t) (hne : l ≠ []) :
    ∃ (i : Nat) (n : node_t), l[i]? = some n ∧ lru_scan none l = some n ∧
      (∀ m ∈ l, m.lru ≤ n.lru) ∧
      (∀ (j : Nat) (m : node_t), j < i → l[j]? = some m → m.lru < n.lru) ∧
      (∀ (j : Nat) (m : node_t), l[j]? = some m → m.lru = n.lru → i ≤ j) := by
  obtain ⟨i, n, h1, h2, h3, h4⟩ := lru_scan_none_first l hne
  refine ⟨i, n, h1, h2, h3, h4, ?_⟩
  intro j m hm heq
  by_contra hlt
  have := h4 j m (by omega) hm
  omega

/-- C17 on a list with a tie for the maximum: the earlier node is selected. -/
theorem c17_recency_victim_selection_witness :
    ∃ (i : Nat) (n : node_t), [(⟨0, 2⟩ : node_t), ⟨1, 5⟩, ⟨2, 5⟩][i]? = some n ∧
      lru_scan none [⟨0, 2⟩, ⟨1, 5⟩, ⟨2, 5⟩] = some n ∧
      (∀ m ∈ [(⟨0, 2⟩ : node_t), ⟨1, 5⟩, ⟨2, 5⟩], m.lru ≤ n.lru) ∧
      (∀ (j : Nat) (m : node_t), j < i → [(⟨0, 2⟩ : node_t), ⟨1, 5⟩, ⟨2, 5⟩][j]? = some m →
        m.lru < n.lru) ∧
      (∀ (j : Nat) (m : node_t), [(⟨0, 2⟩ : node_t), ⟨1, 5⟩, ⟨2, 5⟩][j]? = some m →
        m.lru = n.lru → i ≤ j) :=
  c17_recency_victim_selection [⟨0, 2⟩, ⟨1, 5⟩, ⟨2, 5⟩] (by decide)

/-! ## C18, C19: no victim to offer -/

@[simp] theorem forget_at_state {α : Type} (s : State) (r : Except Fault α) :
    forget_state (at_state s r) = r := by
  cases r <;> rfl

theorem forget_bind {α β : Type} (x : Except (Fault × State) α)
    (f : α → Except (Fault × State) β) :
    forget_state (x >>= f) = (forget_state x >>= fun a => forget_state (f a)) := by
  cases x <;> rfl

theorem traced_ok_bind {α β : Type} (a : α) (f : α → Except (Fault × State) β) :
    (Except.ok a >>= f) = f a := rfl

theorem forget_ok {α : Type} (a : α) :
    forget_state (Except.ok a : Except (Fault × State) α) = .ok a := rfl

/-- Without the final state, `replace_page_traced` is `replace_page`. -/
theorem replace_page_traced_forget (s : State) (page v : Int) :
    forget_state (replace_page_traced s page v) = replace_page s page v := by
  unfold replace_page_traced replace_page
  simp only [forget_bind, forget_at_state]
  cases read_at s.frames_info v with
  | error f => rfl
  | ok q =>
    simp only [ok_bind]
    cases page_table_get_entry s.pt q with
    | error f => rfl
    | ok e =>
      simp only [ok_bind]
      by_cases hw : Int.land e.bits PROT_WRITE ≠ 0
      · rw [if_pos hw, if_pos hw]
        simp only [forget_bind, forget_at_state]
        cases read_at s.physmem e.frame with
        | error f => rfl
        | ok buf =>
          simp only [ok_bind]
          cases disk_write s.disk q buf with
          | error f => rfl
          | ok d =>
            simp only [ok_bind]
            show (forget_state (Except.ok _) >>= _) = (Except.ok _ >>= _)
            simp only [forget_ok, ok_bind]
            cases page_table_set_entry s.pt q 0 0 with
            | error f => rfl
            | ok pt1 =>
              simp only [ok_bind]
              cases page_table_set_entry pt1 page e.frame (Int.lor 0 PROT_READ) with
              | error f => rfl
              | ok pt2 =>
                simp only [ok_bind]
                cases disk_read d page with
                | error f => rfl
                | ok blk =>
                  simp only [ok_bind]
                  cases write_at s.physmem e.frame blk with
                  | error f => rfl
                  | ok pm =>
                    simp only [ok_bind]
                    cases write_at s.frames_info e.frame page with
                    | error f => rfl
                    | ok fi => rfl
      · rw [if_neg hw, if_neg hw]
        show (forget_state (Except.ok _) >>= _) = (Except.ok _ >>= _)
        simp only [forget_ok, ok_bind]
        cases page_table_set_entry s.pt q 0 0 with
        | error f => rfl
        | ok pt1 =>
          simp only [ok_bind]
          cases page_table_set_entry pt1 page e.frame (Int.lor 0 PROT_READ) with
          | error f => rfl
          | ok pt2 =>
            simp only [ok_bind]
            cases disk_read s.disk page with
            | error f => rfl
            | ok blk =>
              simp only [ok_bind]
              cases write_at s.physmem e.frame blk with
              | error f => rfl
              | ok pm =>
                simp only [ok_bind]
                cases write_at s.frames_info e.frame page with
                | error f => rfl
                | ok fi => rfl

/-- Without the final state, `fifo_replace_page_traced` is `fifo_replace_page`. -/
theorem fifo_replace_page_traced_forget (s : State) (page : Int) :
    forget_state (fifo_replace_page_traced s page) = fifo_replace_page s page := by
  unfold fifo_replace_page_traced fifo_replace_page
  by_cases h : (remove_first_node s.fifo).1 < 0
  · simp only [h, if_true]
    rfl
  · simp only [h, if_false, forget_bind, replace_page_traced_forget]
    cases replace_page { s with fifo := (remove_first_node s.fifo).2 } page
      (remove_first_node s.fifo).1 <;> rfl

/-- Without the final state, `lru_replace_page_traced` is `lru_replace_page`. -/
theorem lru_replace_page_traced_forget (s : State) (page : Int) :
    forget_state (lru_replace_page_traced s page) = lru_replace_page s page := by
  unfold lru_replace_page_traced lru_replace_page
  cases lru_scan none s.lru with
  | none => rfl
  | some n =>
    simp only [forget_bind, replace_page_traced_forget]
    cases replace_page s page n.id <;> rfl

/-- Without the final state, `rand_replace_page_traced` is `rand_replace_page`. -/
theorem rand_replace_page_traced_forget (s : State) (page rnd : Int) :
    forget_state (rand_replace_page_traced s page rnd) = rand_replace_page s page rnd := by
  unfold rand_replace_page_traced rand_replace_page
  by_cases h : s.nframes = 0
  · simp only [h, if_true]
    rfl
  · simp only [h, if_false, replace_page_traced_forget]

/-- Without the final state, `page_fault_handler_traced` is `page_fault_handler`:
the two agree on whether the call returns, on the state it returns and on the fault
that ends it. -/
theorem page_fault_handler_traced_forget (s : State) (page rnd : Int) :
    forget_state (page_fault_handler_traced s page rnd) = page_fault_handler s page rnd := by
  obtain ⟨nf, dr, dw, pf, pm, dk, ff, fi, pa, fo, lr, pt⟩ := s
  unfold page_fault_handler_traced page_fault_handler
  simp only [forget_bind, forget_at_state]
  cases page_table_get_entry pt page with
  | error f => rfl
  | ok e =>
    simp only [ok_bind]
    by_cases hm : Int.land e.bits PROT_READ = 0 ∧ Int.land e.bits PROT_WRITE = 0
    · rw [if_pos hm, if_pos hm]
      simp only [forget_bind, forget_at_state]
      cases select_free_frame nf ff with
      | error f => rfl
      | ok r =>
        simp only [ok_bind]
        by_cases hneg : r.1 < 0
        · rw [if_pos hneg, if_pos hneg]
          cases pa with
          | FIFO => exact fifo_replace_page_traced_forget _ page
          | RAND => exact rand_replace_page_traced_forget _ page rnd
          | CUSTOM => exact lru_replace_page_traced_forget _ page
        · rw [if_neg hneg, if_neg hneg]
          simp only [forget_bind, forget_at_state]
          cases page_table_set_entry pt page r.1 (Int.lor 0 PROT_READ) with
          | error f => rfl
          | ok pt1 =>
            simp only [ok_bind]
            cases disk_read dk page with
            | error f => cases pa <;> rfl
            | ok blk =>
              cases pa <;>
              (cases write_at pm r.1 blk with
                | error f => rfl
                | ok pm2 =>
                  cases write_at fi r.1 page with
                  | error f => rfl
                  | ok fi2 => rfl)
    · rw [if_neg hm, if_neg hm]
      simp only [forget_bind, forget_at_state]
      cases (if Int.land e.bits PROT_READ = 1 ∧ Int.land e.bits PROT_WRITE = 0 then
          page_table_set_entry pt page e.frame (Int.lor e.bits PROT_WRITE)
        else page_table_set_entry pt page e.frame (Int.lor e.bits PROT_READ)) with
      | error f => rfl
      | ok pt1 => rfl

/-- A scan that starts at a non-negative index and returns `-1` has left the array
as it was. -/
theorem select_free_frame_from_none (ff : List Int) :
    ∀ (k : Nat) (i : Int) (ff2 : List Int), 0 ≤ i →
      select_free_frame_from ff k i = .ok (-1, ff2) → ff2 = ff := by
  intro k
  induction k with
  | zero =>
    intro i ff2 _ h
    simp only [select_free_frame_from, Except.ok.injEq, Prod.mk.injEq] at h
    exact h.2.symm
  | succ k ih =>
    intro i ff2 h0 h
    simp only [select_free_frame_from] at h
    cases hr : read_at ff i with
    | error f => rw [hr] at h; cases h
    | ok v =>
      rw [hr] at h
      simp only at h
      by_cases hv : v = 0
      · rw [if_pos hv] at h
        cases hw : write_at ff i 1 with
        | error f => rw [hw] at h; cases h
        | ok ff3 =>
          rw [hw] at h
          simp only [Except.ok.injEq, Prod.mk.injEq] at h
          omega
      · rw [if_neg hv] at h
        exact ih (i + 1) ff2 (by omega) h

/-- C18: on a missing-page fault for which `select_free_frame` returns `-1`, under
FIFO with an empty queue the handler ends the process by `exit(1)`, and under the
recency policy with an empty list the scan of `lru_replace_page` leaves `lru_frame`
at `NULL` and the read of `lru_frame->id` ends the process.  In both cases the call
does not return, and the state in which the process ends is the state at the call
with only `page_faults` incremented: the page table, the frame table
(`free_frames`, `frames_info`), the physical memory, the disk and the disk counters
are untouched. -/
theorem c18_no_victim (s : State) (page rnd : Int) (e : pt_entry) (ff : List Int)
    (he : read_at s.pt page = .ok e)
    (hmiss : Int.land e.bits PROT_READ = 0 ∧ Int.land e.bits PROT_WRITE = 0)
    (hsel : select_free_frame s.nframes s.free_frames = .ok (-1, ff)) :
    (s.page_algo = .FIFO → s.fifo = [] →
      page_fault_handler s page rnd = .error .exit1 ∧
      page_fault_handler_traced s page rnd
        = .error (.exit1, { s with page_faults := int_incr s.page_faults })) ∧
    (s.page_algo = .CUSTOM → s.lru = [] →
      page_fault_handler s page rnd = .error .undefined ∧
      page_fault_handler_traced s page rnd
        = .error (.undefined, { s with page_faults := int_incr s.page_faults })) := by
  have hneg : (-1 : Int) < 0 := by decide
  have hff : ff = s.free_frames :=
    select_free_frame_from_none s.free_frames s.nframes.toNat 0 ff (le_refl _) hsel
  subst hff
  obtain ⟨nf, dr, dw, pf, pm, dk, ff, fi, pa, fo, lr, pt⟩ := s
  simp only at he hsel
  constructor
  · intro ha hl
    simp only at ha hl
    subst ha hl
    constructor
    · simp only [page_fault_handler, page_table_get_entry, he, ok_bind, hmiss, and_self,
        if_true, hsel, hneg, fifo_replace_page, remove_first_node]
    · simp only [page_fault_handler_traced, page_table_get_entry, he, at_state,
        traced_ok_bind, hmiss, and_self, if_true, hsel, hneg, fifo_replace_page_traced,
        remove_first_node]
  · intro ha hl
    simp only at ha hl
    subst ha hl
    constructor
    · simp only [page_fault_handler, page_table_get_entry, he, ok_bind, hmiss, and_self,
        if_true, hsel, hneg, lru_replace_page, lru_scan]
    · simp only [page_fault_handler_traced, page_table_get_entry, he, at_state,
        traced_ok_bind, hmiss, and_self, if_true, hsel, hneg, lru_replace_page_traced,
        lru_scan]

/-- C18 at the one-frame state with no victim, for a fault on page 1: the process
ends with the page table, the frame table, the disk and the disk counters of
`no_victim_state`. -/
theorem c18_no_victim_witness :
    (page_fault_handler (no_victim_state .FIFO) 1 0 = .error .exit1 ∧
      page_fault_handler_traced (no_victim_state .FIFO) 1 0
        = .error (.exit1, { no_victim_state .FIFO with page_faults := 2 })) ∧
    (page_fault_handler (no_victim_state .CUSTOM) 1 0 = .error .undefined ∧
      page_fault_handler_traced (no_victim_state .CUSTOM) 1 0
        = .error (.undefined, { no_victim_state .CUSTOM with page_faults := 2 })) :=
  ⟨(c18_no_victim (no_victim_state .FIFO) 1 0 ⟨0, 0⟩ [1] rfl (by decide) rfl).1 rfl rfl,
    (c18_no_victim (no_victim_state .CUSTOM) 1 0 ⟨0, 0⟩ [1] rfl (by decide) rfl).2 rfl rfl⟩

/-- C19: `init_frames` rejects `nframes <= 0`; in every state reached from the
initial state with `nframes >= 1` in which `select_free_frame` returns `-1`, under
FIFO the queue is non-empty and `remove_first_node` returns a non-negative frame
id, under the recency policy the list is non-empty and the scan of
`lru_replace_page` ends on a node, not on `NULL`; and every fault then returns. -/
theorem c19_victim_available (npages : Nat) (nframes : Int) (a : algo)
    (pm d : List Block) (evs : List (Int × Int)) (hn : 1 ≤ nframes)
    (hpm : (pm.length : Int) = nframes) (hd : d.length = npages)
    (hev : ∀ ev ∈ evs, valid_fault npages ev) (s : State)
    (hs : reach npages nframes a pm d evs = .ok s) (ff : List Int)
    (hsel : select_free_frame s.nframes s.free_frames = .ok (-1, ff)) :
    (∀ n : Int, n ≤ 0 → init_frames n = .error .exit1) ∧
    (a = .FIFO → s.fifo ≠ [] ∧ 0 ≤ (remove_first_node s.fifo).1) ∧
    (a = .CUSTOM → s.lru ≠ [] ∧ ∃ n, lru_scan none s.lru = some n) ∧
    (∀ page rnd, valid_fault npages (page, rnd) →
      ∃ s2, page_fault_handler s page rnd = .ok s2) := by
  obtain ⟨hI, hl, -, hpa⟩ := Inv_of_reach npages nframes a pm d evs hn hpm hd hev s hs
  have hfull := full_of_select_none s.nframes s.free_frames ff hI.len_ff hsel
  obtain ⟨v, hv, hfifo, -, hlru⟩ := victim_exists s hI 0 (le_refl _) hfull
  have hvb := read_at_bounds hv
  refine ⟨?_, ?_, ?_, ?_⟩
  · intro n hn0
    have : ¬ n > 0 := by omega
    simp [init_frames, this]
  · intro ha
    obtain ⟨n, rest, h1, h2⟩ := hfifo (hpa.trans ha)
    rw [h1]
    refine ⟨by simp, ?_⟩
    show 0 ≤ n.id
    rw [h2]
    exact hvb.1
  · intro ha
    obtain ⟨n, h1, -⟩ := hlru (hpa.trans ha)
    refine ⟨?_, n, h1⟩
    intro hx
    rw [hx] at h1
    simp [lru_scan] at h1
  · intro page rnd hf
    obtain ⟨s2, h2, -⟩ := Inv_step s hI page rnd ⟨hf.1, by rw [hl]; exact hf.2.1⟩ hf.2.2.1
    exact ⟨s2, h2⟩

/-- C19 at the full two-frame FIFO state. -/
theorem c19_victim_available_witness :
    (∀ n : Int, n ≤ 0 → init_frames n = .error .exit1) ∧
    (algo.FIFO = .FIFO → two_resident_state.fifo ≠ [] ∧
      0 ≤ (remove_first_node two_resident_state.fifo).1) ∧
    (algo.FIFO = .CUSTOM → two_resident_state.lru ≠ [] ∧
      ∃ n, lru_scan none two_resident_state.lru = some n) ∧
    (∀ page rnd, valid_fault 3 (page, rnd) →
      ∃ s2, page_fault_handler two_resident_state page rnd = .ok s2) :=
  c19_victim_available 3 2 .FIFO [[], []] [[10], [11], [12]] [(0, 0), (0, 0), (1, 0)]
    (by decide) (by decide) (by decide) (by decide) two_resident_state
    reach_two_resident_state [1, 1] rfl

/-! ## C20: the recency list -/

end VM
